import Mathlib

/-!
Verification development for the document ingestion pipeline of the
RAG conversational-agent backend.

The embedding models three components:

* the worker-side processing pipeline
  (`backend/worker/use_cases/process_document.py`, `ProcessDocumentUseCase`),
* the upload pipeline
  (`backend/application/use_cases/upload_document.py`, `UploadDocumentUseCase`),
* the progress relay loop
  (`backend/routes/documents.py`, `document_progress.event_generator`).

External collaborators (blob store, document store, vector index, broker,
PDF analyzer) are modelled as an environment record whose operations are
functions of the arguments the code passes them, returning `Except String α`
where the `String` is the Python exception's `str(e)`.  Stateful effects
(document-store row, published events, indexed batches, blob deletion) are
threaded through an explicit state record.
-/

namespace RagPipeline

/-- Document processing status (`DocumentStatus` in
`backend/domain/models/document.py`): queued → vectorizing → completed | failed. -/
inductive DocumentStatus where
  | queued
  | vectorizing
  | completed
  | failed
deriving DecidableEq, Repr

/-- Raw file bytes, kept abstract. -/
abbrev FileContent := String

/-- A text chunk with the metadata tags set by `_chunk_pdf`
(`chunk.metadata["company_id" / "document_id" / "source"]`). -/
structure Chunk where
  text : String
  company_id : String
  document_id : String
  source : String
deriving DecidableEq, Repr

/-- The document-row fields `_chunk` reads back from the Document Store
(`repo.get_by_id`); only `filename` is used by the pipeline. -/
structure DocRow where
  filename : String
deriving DecidableEq, Repr

/-- A progress event as serialized by `_publish_progress`
(`{document_id, step, progress, message, done}`). -/
structure Event where
  document_id : String
  step : String
  progress : Nat
  message : String
  done : Bool
deriving DecidableEq, Repr

/-- Build a progress event (the dict `_publish_progress` serializes). -/
def mkEvent (documentId step : String) (progress : Nat) (message : String)
    (done : Bool) : Event :=
  { document_id := documentId, step := step, progress := progress
    message := message, done := done }

/-- Observable worker-side state: the document row's status and error message,
the events published on the broker in order, the chunk batches added to the
vector index in order, and whether the blob was deleted. -/
structure PState where
  docStatus : DocumentStatus
  docError : Option String
  published : List Event
  indexed : List (List Chunk)
  blobDeleted : Bool
deriving DecidableEq, Repr

/-- State at the start of a processing attempt: the upload pipeline persisted
the row with status=queued, no error, and nothing has been published yet. -/
def PState.init : PState :=
  { docStatus := DocumentStatus.queued
    docError := none
    published := []
    indexed := []
    blobDeleted := false }

/-- Outcomes of the worker's external-collaborator calls.  Each operation is a
function of the arguments the source passes it; `Except.error e` models the
call raising an exception whose `str` is `e`. -/
structure WorkerEnv where
  /-- `storage.download(gcs_path)` -/
  download : String → Except String FileContent
  /-- `repo.update_status(document_id, status, error_message)` -/
  updateStatus : DocumentStatus → Option String → Except String Unit
  /-- `repo.get_by_id(document_id, company_id)` -/
  get_by_id : String → String → Except String (Option DocRow)
  /-- `PyPDFLoader(...).load()` + `RecursiveCharacterTextSplitter.split_documents`,
  opaque: the chunk texts produced from the file content. -/
  splitPdf : FileContent → Except String (List String)
  /-- `vector_store.add_documents(batch)` -/
  add_documents : List Chunk → Except String Unit
  /-- `storage.delete(gcs_path)` -/
  deleteBlob : String → Except String Unit
  /-- `broker.publish(channel=..., message=...)` -/
  publish : String → Event → Except String Unit

/-- Sequencing with exception propagation: run the continuation only when the
first computation returned normally (Python's ordinary `await` chaining). -/
def bindE {α β : Type} (r : PState × Except String α)
    (k : α → PState → PState × Except String β) : PState × Except String β :=
  match r with
  | (s, Except.ok a) => k a s
  | (s, Except.error e) => (s, Except.error e)

/-- Effect of `repo.update_status`: on success the row holds exactly the given
status and error message (the SQL `UPDATE` writes both columns; the default
`error_message=None` clears the column). -/
def WorkerEnv.runUpdateStatus (env : WorkerEnv) (status : DocumentStatus)
    (errorMessage : Option String) (s : PState) : PState × Except String Unit :=
  match env.updateStatus status errorMessage with
  | Except.ok _ => ({ s with docStatus := status, docError := errorMessage }, Except.ok ())
  | Except.error e => (s, Except.error e)

/-- Effect of `broker.publish`: on success the event is appended to the
channel; a raising publish delivers nothing. -/
def WorkerEnv.runPublish (env : WorkerEnv) (channel : String) (ev : Event)
    (s : PState) : PState × Except String Unit :=
  match env.publish channel ev with
  | Except.ok _ => ({ s with published := s.published ++ [ev] }, Except.ok ())
  | Except.error e => (s, Except.error e)

/-- Effect of `vector_store.add_documents`: on success the batch is appended
to the index. -/
def WorkerEnv.runAddDocuments (env : WorkerEnv) (batch : List Chunk)
    (s : PState) : PState × Except String Unit :=
  match env.add_documents batch with
  | Except.ok _ => ({ s with indexed := s.indexed ++ [batch] }, Except.ok ())
  | Except.error e => (s, Except.error e)

/-- Effect of `storage.delete`. -/
def WorkerEnv.runDeleteBlob (env : WorkerEnv) (gcsPath : String)
    (s : PState) : PState × Except String Unit :=
  match env.deleteBlob gcsPath with
  | Except.ok _ => ({ s with blobDeleted := true }, Except.ok ())
  | Except.error e => (s, Except.error e)

/-- `BATCH_SIZE = 10` in `process_document.py`. -/
def BATCH_SIZE : Nat := 10

/-- `f"document_progress:{document_id}"` — the per-document channel name. -/
def progressChannel (documentId : String) : String :=
  "document_progress:" ++ documentId

/-- `f"{len(chunks)} chunk(s) cree(s)"` — the chunk-count message of `_chunk`. -/
def chunkCountMessage (n : Nat) : String :=
  s!"{n} chunk(s) cree(s)"

/-- The terminal event published by `_complete`. -/
def completedEvent (documentId : String) : Event :=
  mkEvent documentId "completed" 100 "Traitement termine" true

/-- The terminal event published by `_fail`. -/
def failedEvent (documentId error : String) : Event :=
  mkEvent documentId "failed" 0 error true

/-! ## Model of CPython binary64 arithmetic for the batch percentage
`_embed` computes `int(((batch_idx + 1) / total_batches) * 75)` over Python
floats: `/` is true division (the correctly rounded IEEE-754 binary64
quotient, round to nearest, ties to even), the product with 75 (exact as a
double) is correctly rounded again, and `int` truncates toward zero.  The
model below computes these two roundings exactly over naturals: `natLog2`
locates the binade, `rneDiv` is round-to-nearest-ties-even division,
`fpMantissa a b` is the 53-bit significand of the rounded quotient `a / b`
at exponent `fpExp a b` (clamped at the subnormal threshold -1022), and
`fpTrunc` truncates a rounded quotient to a natural. -/

/-- Fuel-driven binary logarithm; `log2F fuel n = ⌊log₂ n⌋` once `n ≤ fuel`
(structural recursion so that concrete values reduce in the kernel). -/
def log2F : Nat → Nat → Nat
  | 0, _ => 0
  | fuel + 1, n => if n ≤ 1 then 0 else log2F fuel (n / 2) + 1

/-- `⌊log₂ n⌋` for `n ≥ 1` (and 0 at 0). -/
def natLog2 (n : Nat) : Nat := log2F n n

/-- `⌊log₂ (a / b)⌋` for positive naturals, via the bit lengths of `a` and `b`. -/
def ratLog2 (a b : Nat) : Int :=
  let la := natLog2 a
  let lb := natLog2 b
  if b * 2 ^ la ≤ a * 2 ^ lb then (la : Int) - lb else (la : Int) - lb - 1

/-- Round-to-nearest, ties to even, of `num / den` (`den > 0`): the rounding
IEEE-754 applies to both Python's float division and multiplication. -/
def rneDiv (num den : Nat) : Nat :=
  if 2 * (num % den) < den then num / den
  else if den < 2 * (num % den) then num / den + 1
  else if num / den % 2 = 0 then num / den
  else num / den + 1

/-- Numerator of `(a / b) · 2^σ` written as a fraction of naturals. -/
def scaleNum (a : Nat) (σ : Int) : Nat :=
  if 0 ≤ σ then a * 2 ^ σ.toNat else a

/-- Denominator of `(a / b) · 2^σ` written as a fraction of naturals. -/
def scaleDen (b : Nat) (σ : Int) : Nat :=
  if 0 ≤ σ then b else b * 2 ^ (-σ).toNat

/-- IEEE-754 binary64 exponent of the double nearest `a / b`: the binary
exponent of the value, clamped at the subnormal floor −1022. -/
def fpExp (a b : Nat) : Int := max (ratLog2 a b) (-1022)

/-- Mantissa of the double nearest `a / b` at quantum `2^(fpExp − 52)`:
`(a/b) · 2^(52 − fpExp)` rounded to the nearest integer, ties to even. -/
def fpMantissa (a b : Nat) : Nat :=
  rneDiv (scaleNum a (52 - fpExp a b)) (scaleDen b (52 - fpExp a b))

/-- `int(fl(a/b))`: truncation toward zero of the double nearest `a / b`. -/
def fpTrunc (a b : Nat) : Nat :=
  if 0 ≤ 52 - fpExp a b then fpMantissa a b / 2 ^ (52 - fpExp a b).toNat
  else fpMantissa a b * 2 ^ (fpExp a b - 52).toNat

/-- The double nearest `a / b` as an exact rational (proof-side value). -/
def fpVal (a b : Nat) : ℚ :=
  (fpMantissa a b : ℚ) * (2:ℚ) ^ (fpExp a b - 52)

/-- `int(((batch_idx + 1) / total_batches) * 75)` computed exactly as CPython
computes it in IEEE-754 binary64: `k / t` is the correctly rounded double of
the ratio (round to nearest, ties to even), the multiplication by 75 (exact as
a double) rounds the exact product to nearest again, and `int` truncates
toward zero.  `fl(k/t) = fpMantissa k t · 2^(fpExp k t − 52)`, so the exact
product `75 · fl(k/t)` is the fraction produced by `scaleNum`/`scaleDen`, and
the outer `fpTrunc` performs the second rounding and the truncation. -/
def pyProgress75 (k t : Nat) : Nat :=
  if k = 0 ∨ t = 0 then 0
  else fpTrunc (scaleNum (75 * fpMantissa k t) (fpExp k t - 52))
    (scaleDen 1 (fpExp k t - 52))

namespace ProcessDocument

/-- `_publish_progress`: serialize the event and publish it on the channel. -/
def publish_progress (env : WorkerEnv) (channel documentId step : String)
    (progress : Nat) (message : String) (done : Bool) (s : PState) :
    PState × Except String Unit :=
  env.runPublish channel (mkEvent documentId step progress message done) s

/-- `_download` (0% → 10%): publish, fetch bytes from the blob store, publish. -/
def download (env : WorkerEnv) (channel documentId gcsPath : String)
    (s : PState) : PState × Except String FileContent :=
  bindE (publish_progress env channel documentId "downloading" 0
      "Telechargement du fichier..." false s) fun _ s =>
  match env.download gcsPath with
  | Except.error e => (s, Except.error e)
  | Except.ok content =>
    bindE (publish_progress env channel documentId "downloading" 10
        "Fichier telecharge" false s) fun _ s =>
    (s, Except.ok content)

/-- `_chunk_pdf`: split the content (opaque loader + splitter, via the
environment) and tag every chunk with company_id, document_id and source. -/
def chunk_pdf (env : WorkerEnv) (content : FileContent)
    (filename companyId documentId : String) : Except String (List Chunk) :=
  match env.splitPdf content with
  | Except.error e => Except.error e
  | Except.ok texts =>
    Except.ok (texts.map fun t =>
      { text := t, company_id := companyId, document_id := documentId
        source := filename })

/-- `_chunk` (10% → 20%): transition to vectorizing, publish, re-fetch the row
for the canonical filename (falling back to "unknown.pdf"), split, publish the
chunk count. -/
def chunk (env : WorkerEnv) (channel documentId companyId : String)
    (content : FileContent) (s : PState) : PState × Except String (List Chunk) :=
  bindE (env.runUpdateStatus DocumentStatus.vectorizing none s) fun _ s =>
  bindE (publish_progress env channel documentId "vectorizing" 10
      "Decoupage du document en chunks..." false s) fun _ s =>
  match env.get_by_id documentId companyId with
  | Except.error e => (s, Except.error e)
  | Except.ok docRow =>
    let filename := match docRow with
      | some d => d.filename
      | none => "unknown.pdf"
    match chunk_pdf env content filename companyId documentId with
    | Except.error e => (s, Except.error e)
    | Except.ok chunks =>
      bindE (publish_progress env channel documentId "vectorizing" 20
          (chunkCountMessage chunks.length) false s) fun _ s =>
      (s, Except.ok chunks)

/-- Structural helper for `toBatches`: the fuel bounds the number of slices
(one slice consumes at least one element, so the list length suffices). -/
def toBatchesAux : Nat → List Chunk → List (List Chunk)
  | 0, _ => []
  | _, [] => []
  | fuel + 1, c :: rest =>
    (c :: rest).take BATCH_SIZE :: toBatchesAux fuel ((c :: rest).drop BATCH_SIZE)

/-- Python slicing `[chunks[i:i + BATCH_SIZE] for i in range(0, total, BATCH_SIZE)]`. -/
def toBatches (chunks : List Chunk) : List (List Chunk) :=
  toBatchesAux chunks.length chunks

/-- The message of the progress event after one batch:
`f"Indexation: {processed}/{total_chunks} chunks"`. -/
def batchMessage (processed totalChunks : Nat) : String :=
  s!"Indexation: {processed}/{totalChunks} chunks"

/-- The event `_embed` publishes after completing batch `batchIdx` (0-based):
`20 + int(((batch_idx + 1) / total_batches) * 75)`, the division and the
multiplication evaluated in IEEE-754 binary64 exactly as CPython evaluates
them (`pyProgress75`). -/
def embedEvent (documentId : String) (totalBatches totalChunks batchIdx : Nat) :
    Event :=
  mkEvent documentId "vectorizing" (20 + pyProgress75 (batchIdx + 1) totalBatches)
    (batchMessage (min ((batchIdx + 1) * BATCH_SIZE) totalChunks) totalChunks) false

/-- The `for batch_idx, batch in enumerate(batches)` loop of `_embed`:
add the batch to the vector index, then publish the interpolated progress. -/
def embedLoop (env : WorkerEnv) (channel documentId : String)
    (totalBatches totalChunks : Nat) :
    Nat → List (List Chunk) → PState → PState × Except String Unit
  | _, [], s => (s, Except.ok ())
  | batchIdx, batch :: rest, s =>
    bindE (env.runAddDocuments batch s) fun _ s =>
    bindE (env.runPublish channel
        (embedEvent documentId totalBatches totalChunks batchIdx) s) fun _ s =>
    embedLoop env channel documentId totalBatches totalChunks (batchIdx + 1) rest s

/-- `_embed` (20% → 95%): return immediately on an empty chunk list, otherwise
partition into fixed-size batches and run the loop. -/
def embed (env : WorkerEnv) (channel documentId : String) (chunks : List Chunk)
    (s : PState) : PState × Except String Unit :=
  if chunks.length = 0 then (s, Except.ok ())
  else
    let batches := toBatches chunks
    embedLoop env channel documentId batches.length chunks.length 0 batches s

/-- `_complete` (100%): set status=completed, delete the blob, publish the
terminal event with done=true. -/
def complete (env : WorkerEnv) (channel documentId gcsPath : String)
    (s : PState) : PState × Except String Unit :=
  bindE (env.runUpdateStatus DocumentStatus.completed none s) fun _ s =>
  bindE (env.runDeleteBlob gcsPath s) fun _ s =>
  publish_progress env channel documentId "completed" 100 "Traitement termine" true s

/-- `_fail`: set status=failed with `error_message=str(error)`, publish the
terminal event `(step="failed", progress=0, message=str(error), done=True)`.
Its own collaborator calls are not guarded by any handler. -/
def fail (env : WorkerEnv) (channel documentId : String) (error : String)
    (s : PState) : PState × Except String Unit :=
  bindE (env.runUpdateStatus DocumentStatus.failed (some error) s) fun _ s =>
  publish_progress env channel documentId "failed" 0 error true s

/-- The `try` body of `execute`: download, chunk, embed, complete. -/
def stages (env : WorkerEnv) (documentId companyId gcsPath : String)
    (s : PState) : PState × Except String Unit :=
  let channel := progressChannel documentId
  bindE (download env channel documentId gcsPath s) fun content s =>
  bindE (chunk env channel documentId companyId content s) fun chunks s =>
  bindE (embed env channel documentId chunks s) fun _ s =>
  complete env channel documentId gcsPath s

/-- `ProcessDocumentUseCase.execute`: run the stages; `except Exception` routes
any stage error to `_fail`. -/
def execute (env : WorkerEnv) (documentId companyId gcsPath : String)
    (s : PState) : PState × Except String Unit :=
  match stages env documentId companyId gcsPath s with
  | (s, Except.ok _) => (s, Except.ok ())
  | (s, Except.error e) => fail env (progressChannel documentId) documentId e s

end ProcessDocument

/-! ## Upload pipeline (`backend/application/use_cases/upload_document.py`) -/

/-- Typed outcomes of `UploadDocumentUseCase.execute`: the domain exceptions
(`InvalidFileTypeError`, `FileTooLargeError`, `PageLimitExceededError`) plus
`infra` wrapping any exception a collaborator call raises. -/
inductive UploadError where
  | invalidFileType (contentType : String)
  | fileTooLarge (size maxSize : Nat)
  | pageLimitExceeded (currentTotal incoming maxPages : Nat)
  | infra (message : String)
deriving DecidableEq, Repr

/-- The Document entity (`backend/domain/models/document.py`). -/
structure Document where
  document_id : String
  company_id : String
  filename : String
  content_type : String
  size_bytes : Nat
  num_pages : Nat
  status : DocumentStatus
  error_message : Option String
  gcs_path : String
deriving DecidableEq, Repr

/-- Modelled from the spec: the accepted PDF media type
("Validate `content_type` is exactly the accepted PDF media type"). -/
def ACCEPTED_CONTENT_TYPE : String := "application/pdf"

/-- Modelled from the spec: `Document.create` — the file
`backend/domain/models/document.py` is not among the sources, only its
callers are.  Per §4.1 step 1 it validates `content_type` (exactly the PDF
media type, else `InvalidFileType`) and `size_bytes ≤ MAX_UPLOAD_SIZE_BYTES`
(else `FileTooLarge`), in that listed order, and otherwise yields a fresh
Document with status=queued, `num_pages` 0 until content analysis, and no
storage key yet. -/
def Document.create (documentId companyId filename : String) (sizeBytes : Nat)
    (contentType : String) (maxUploadSizeBytes : Nat) :
    Except UploadError Document :=
  if contentType ≠ ACCEPTED_CONTENT_TYPE then
    Except.error (UploadError.invalidFileType contentType)
  else if maxUploadSizeBytes < sizeBytes then
    Except.error (UploadError.fileTooLarge sizeBytes maxUploadSizeBytes)
  else
    Except.ok
      { document_id := documentId, company_id := companyId
        filename := filename, content_type := contentType
        size_bytes := sizeBytes, num_pages := 0
        status := DocumentStatus.queued, error_message := none, gcs_path := "" }

/-- An observable side effect of one upload call, recorded in order. -/
inductive UploadEffect where
  /-- `pdf_analyzer.count_pages(content)` was invoked. -/
  | pagesCounted
  /-- `repo.get_total_pages(company_id)` was invoked. -/
  | quotaRead
  /-- `storage.upload(...)` returned the storage key. -/
  | blobUploaded (gcsPath : String)
  /-- `repo.create(document)` persisted the row. -/
  | docCreated (doc : Document)
  /-- `job_queue.enqueue("process_document", ...)` accepted the job. -/
  | jobEnqueued (jobName documentId companyId gcsPath : String)
deriving DecidableEq, Repr

/-- Outcomes of the upload pipeline's collaborator calls, plus the generated
document id and the two quota constants.  `MAX_UPLOAD_SIZE_BYTES` and
`MAX_PAGES_PER_COMPANY` are referenced by the source but their values are not
among the sources, so they are environment parameters. -/
structure UploadEnv where
  newDocumentId : String
  maxUploadSizeBytes : Nat
  maxPagesPerCompany : Nat
  /-- `pdf_analyzer.count_pages(content)` -/
  count_pages : FileContent → Except String Nat
  /-- `repo.get_total_pages(company_id)` -/
  get_total_pages : String → Except String Nat
  /-- `storage.upload(company_id, document_id, file_content, content_type)`,
  returning the storage key. -/
  upload : String → String → FileContent → String → Except String String
  /-- `repo.create(document)` -/
  create : Document → Except String Unit
  /-- `job_queue.enqueue("process_document", ...)` -/
  enqueue : Except String Unit

/-- `UploadDocumentUseCase.execute(company_id, filename, content, content_type)`:
validate via `Document.create`, count pages, check the tenant quota
(`current_total + num_pages > MAX_PAGES_PER_COMPANY` rejects), upload the blob,
persist the row, enqueue the job.  The effect trace records the side effects
in program order; a raising step leaves the trace as it was. -/
def uploadExecute (env : UploadEnv) (companyId filename : String)
    (content : FileContent) (contentType : String)
    (trace : List UploadEffect) :
    List UploadEffect × Except UploadError Document :=
  match Document.create env.newDocumentId companyId filename content.length
      contentType env.maxUploadSizeBytes with
  | Except.error err => (trace, Except.error err)
  | Except.ok document =>
    let trace := trace ++ [UploadEffect.pagesCounted]
    match env.count_pages content with
    | Except.error e => (trace, Except.error (UploadError.infra e))
    | Except.ok numPages =>
      let document := { document with num_pages := numPages }
      let trace := trace ++ [UploadEffect.quotaRead]
      match env.get_total_pages companyId with
      | Except.error e => (trace, Except.error (UploadError.infra e))
      | Except.ok currentTotal =>
        if env.maxPagesPerCompany < currentTotal + numPages then
          (trace, Except.error (UploadError.pageLimitExceeded currentTotal
            numPages env.maxPagesPerCompany))
        else
          match env.upload companyId document.document_id content contentType with
          | Except.error e => (trace, Except.error (UploadError.infra e))
          | Except.ok gcsPath =>
            let document := { document with gcs_path := gcsPath }
            let trace := trace ++ [UploadEffect.blobUploaded gcsPath]
            match env.create document with
            | Except.error e => (trace, Except.error (UploadError.infra e))
            | Except.ok _ =>
              let trace := trace ++ [UploadEffect.docCreated document]
              match env.enqueue with
              | Except.error e => (trace, Except.error (UploadError.infra e))
              | Except.ok _ =>
                (trace ++ [UploadEffect.jobEnqueued "process_document"
                    document.document_id companyId gcsPath],
                  Except.ok document)

/-- Whether an upload result is the `FileTooLarge` rejection. -/
def isFileTooLarge : Except UploadError Document → Bool
  | Except.error (UploadError.fileTooLarge _ _) => true
  | _ => false

/-- Whether an upload result is the `PageLimitExceeded` rejection. -/
def isPageLimit : Except UploadError Document → Bool
  | Except.error (UploadError.pageLimitExceeded _ _ _) => true
  | _ => false

/-! ## Progress relay (`backend/routes/documents.py`, `event_generator`) -/

/-- One outcome of `asyncio.wait_for(subscription.get(), HEARTBEAT_INTERVAL)`:
the bounded pull timed out, returned a raw message (whose `json.loads` outcome
is carried, a parse failure raising into the `except Exception` branch), or
raised some other error. -/
inductive RelayInput where
  | timeout
  | message (parsed : Except String Event)
  | fault (error : String)
deriving Repr

/-- An event yielded to the SSE client: a forwarded progress event, an empty
heartbeat, or an error event. -/
inductive SseEvent where
  | progress (data : Event)
  | heartbeat
  | errorEvent (error : String)
deriving DecidableEq, Repr

/-- One iteration of the `while True` loop: the events yielded during the
iteration and whether the loop breaks.  A well-parsed message is forwarded as
a progress event and breaks iff `data.get("done", False)`; a timeout yields a
heartbeat and continues; any other error yields an error event and breaks. -/
def relayIter : RelayInput → List SseEvent × Bool
  | RelayInput.timeout => ([SseEvent.heartbeat], false)
  | RelayInput.fault e => ([SseEvent.errorEvent e], true)
  | RelayInput.message parsed =>
    match parsed with
    | Except.error e => ([SseEvent.errorEvent e], true)
    | Except.ok data => ([SseEvent.progress data], data.done)

/-- `event_generator` over a finite trace of pull outcomes: the yielded events
and whether the scoped subscription (`async with broker.subscribe(...)`) was
released — it is released when the loop breaks and also when the generator is
closed with inputs remaining (client disconnect). -/
def relayRun : List RelayInput → List SseEvent × Bool
  | [] => ([], true)
  | inp :: rest =>
    let r := relayIter inp
    if r.2 then (r.1, true)
    else
      let rec' := relayRun rest
      (r.1 ++ rec'.1, rec'.2)

/-! ## Concrete environments used to instantiate the theorems -/

/-- A worker environment in which every collaborator call succeeds and the
splitter produces 61 chunk texts (7 batches of size 10). -/
def wEnvOk : WorkerEnv :=
  { download := fun _ => Except.ok "bytes"
    updateStatus := fun _ _ => Except.ok ()
    get_by_id := fun _ _ => Except.ok (some { filename := "f.pdf" })
    splitPdf := fun _ => Except.ok (List.replicate 61 "t")
    add_documents := fun _ => Except.ok ()
    deleteBlob := fun _ => Except.ok ()
    publish := fun _ _ => Except.ok () }

/-- Download raises and the Document Store is down for the failed-status
write: the failure handler's own `update_status` call raises. -/
def wEnvFailUpd : WorkerEnv :=
  { wEnvOk with
    download := fun _ => Except.error "boom"
    updateStatus := fun st _ =>
      match st with
      | DocumentStatus.failed => Except.error "db down"
      | _ => Except.ok () }

/-- Download raises and the broker is down for the terminal failed event:
the failure handler's own `publish` call raises. -/
def wEnvFailPub : WorkerEnv :=
  { wEnvOk with
    download := fun _ => Except.error "boom"
    publish := fun _ ev =>
      if ev.step = "failed" then Except.error "redis down" else Except.ok () }

/-- Download raises (everything else up): the ordinary failure path. -/
def wEnvDownloadBoom : WorkerEnv :=
  { wEnvOk with download := fun _ => Except.error "boom" }

/-- The PDF splitter raises mid-pipeline (corrupt file). -/
def wEnvBadPdf : WorkerEnv :=
  { wEnvOk with splitPdf := fun _ => Except.error "bad pdf" }

/-- Download raises an exception whose `str(e)` is the empty string
(e.g. a bare `Exception()`). -/
def wEnvEmptyErr : WorkerEnv :=
  { wEnvOk with download := fun _ => Except.error "" }

/-- The splitter yields no chunks at all. -/
def wEnvNoChunks : WorkerEnv :=
  { wEnvOk with splitPdf := fun _ => Except.ok [] }

/-- An upload environment in which every collaborator call succeeds:
3-page PDF, tenant total 7 of max 10 pages, 2-byte size cap. -/
def uEnvOk : UploadEnv :=
  { newDocumentId := "doc-1"
    maxUploadSizeBytes := 2
    maxPagesPerCompany := 10
    count_pages := fun _ => Except.ok 3
    get_total_pages := fun _ => Except.ok 7
    upload := fun _ _ _ _ => Except.ok "gs://doc-1"
    create := fun _ => Except.ok ()
    enqueue := Except.ok () }

/-- Upload environment whose tenant already has 8 indexed pages. -/
def uEnvQuota : UploadEnv :=
  { uEnvOk with
    maxUploadSizeBytes := 100
    get_total_pages := fun _ => Except.ok 8 }

/-- Upload environment whose blob store raises on upload. -/
def uEnvBlobDown : UploadEnv :=
  { uEnvOk with
    maxUploadSizeBytes := 100
    upload := fun _ _ _ _ => Except.error "gcs down" }

/-- Modelled from the spec: the batch progress formula as the spec words it,
`20 + round(batch_index_completed / total_batches * 75)` with standard
rounding (half up), written over exact rationals as
`20 + (2 * (75 * k) + t) / (2 * t)`.  Kept separate from `embedEvent`, which
is translated from the source (`int` truncation), for comparison. -/
def specRoundedProgress (k totalBatches : Nat) : Nat :=
  20 + (2 * (75 * k) + totalBatches) / (2 * totalBatches)

/-- 61 identical chunks: seven batches of size 10 (the last of size 1). -/
def chunks61 : List Chunk :=
  List.replicate 61 { text := "t", company_id := "c", document_id := "d", source := "f" }

/-! ## Theorems: upload pipeline (C5, C6, C7) -/

/-- C5, counterexample to the claim as stated: an upload whose size exceeds
the cap but whose content type is also not PDF fails with `InvalidFileType`,
not `FileTooLarge` — the content-type validation fires first, so "for every
upload where size_bytes exceeds MAX_UPLOAD_SIZE_BYTES it fails with
FileTooLarge" is false at this input ("abc" is 3 bytes against a 2-byte cap). -/
theorem C5_counterexample :
    (uploadExecute uEnvOk "c1" "big.pdf" "abc" "text/plain" []).2 =
      Except.error (UploadError.invalidFileType "text/plain") ∧
    isFileTooLarge (uploadExecute uEnvOk "c1" "big.pdf" "abc" "text/plain" []).2
      = false := by
  exact ⟨rfl, rfl⟩

/-- C5 (amended): an upload whose content type is not the PDF media type fails
with `InvalidFileType`; an upload whose content type is PDF but whose size
exceeds `MAX_UPLOAD_SIZE_BYTES` fails with `FileTooLarge`; in both cases the
effect trace is unchanged — no page counting, quota read, blob upload,
document row, or queue entry. -/
theorem C5_validation (env : UploadEnv) (companyId filename : String)
    (content : FileContent) (contentType : String) (trace : List UploadEffect) :
    (contentType ≠ ACCEPTED_CONTENT_TYPE →
      uploadExecute env companyId filename content contentType trace =
        (trace, Except.error (UploadError.invalidFileType contentType))) ∧
    (contentType = ACCEPTED_CONTENT_TYPE →
      env.maxUploadSizeBytes < content.length →
      uploadExecute env companyId filename content contentType trace =
        (trace, Except.error (UploadError.fileTooLarge content.length
          env.maxUploadSizeBytes))) := by
  constructor
  · intro h
    simp [uploadExecute, Document.create, h]
  · intro h hsz
    simp [uploadExecute, Document.create, h, hsz]

/-- Witness for C5 at concrete inputs: a non-PDF upload and an oversized PDF
upload against `uEnvOk` (2-byte cap). -/
theorem C5_validation_witness :
    uploadExecute uEnvOk "c1" "a.txt" "abc" "text/plain" [] =
      ([], Except.error (UploadError.invalidFileType "text/plain")) ∧
    uploadExecute uEnvOk "c1" "a.pdf" "abc" "application/pdf" [] =
      ([], Except.error (UploadError.fileTooLarge 3 2)) := by
  refine ⟨(C5_validation uEnvOk "c1" "a.txt" "abc" "text/plain" []).1 (by decide), ?_⟩
  exact (C5_validation uEnvOk "c1" "a.pdf" "abc" "application/pdf" []).2 rfl (by decide)

/-- C6: with a valid PDF upload (accepted type, size within cap) whose page
count is `n` and whose tenant total is `t`, the call raises
`PageLimitExceeded` iff `t + n > MAX_PAGES_PER_COMPANY`; when it raises it
carries exactly `(t, n, max)` and the trace shows only the page count and the
quota read — no blob upload, no document row, no queue entry; when
`t + n ≤ max` (in particular at exact equality) the quota gate passes and,
with the remaining collaborators up, the upload returns the document. -/
theorem C6_page_quota (env : UploadEnv) (companyId filename : String)
    (content : FileContent) (n t : Nat)
    (hsz : content.length ≤ env.maxUploadSizeBytes)
    (hcp : env.count_pages content = Except.ok n)
    (hgt : env.get_total_pages companyId = Except.ok t) :
    (isPageLimit
        (uploadExecute env companyId filename content ACCEPTED_CONTENT_TYPE []).2
      = true ↔ env.maxPagesPerCompany < t + n) ∧
    (env.maxPagesPerCompany < t + n →
      uploadExecute env companyId filename content ACCEPTED_CONTENT_TYPE [] =
        ([UploadEffect.pagesCounted, UploadEffect.quotaRead],
          Except.error (UploadError.pageLimitExceeded t n env.maxPagesPerCompany))) ∧
    (∀ gcsPath, t + n ≤ env.maxPagesPerCompany →
      env.upload companyId env.newDocumentId content ACCEPTED_CONTENT_TYPE =
        Except.ok gcsPath →
      (∀ d, env.create d = Except.ok ()) →
      env.enqueue = Except.ok () →
      ∃ d, (uploadExecute env companyId filename content ACCEPTED_CONTENT_TYPE []).2
        = Except.ok d ∧ d.num_pages = n) := by
  have hnot : ¬ env.maxUploadSizeBytes < content.length := by omega
  refine ⟨?_, ?_, ?_⟩
  · by_cases hq : env.maxPagesPerCompany < t + n
    · simp [uploadExecute, Document.create, hnot, hcp, hgt, hq, isPageLimit]
    · simp only [uploadExecute, Document.create, hnot, hcp, hgt, hq]
      simp only [if_neg hq, ite_false, if_neg hnot]
      cases hup : env.upload companyId env.newDocumentId content ACCEPTED_CONTENT_TYPE with
      | error e => simp [hup, isPageLimit, hq]
      | ok g =>
        cases hcr : env.create
          { document_id := env.newDocumentId, company_id := companyId
            filename := filename, content_type := ACCEPTED_CONTENT_TYPE
            size_bytes := content.length, num_pages := n
            status := DocumentStatus.queued, error_message := none
            gcs_path := g } with
        | error e => simp [hup, hcr, isPageLimit, hq]
        | ok _ =>
          cases henq : env.enqueue with
          | error e => simp [hup, hcr, henq, isPageLimit, hq]
          | ok _ => simp [hup, hcr, henq, isPageLimit, hq]
  · intro hq
    simp [uploadExecute, Document.create, hnot, hcp, hgt, hq]
  · intro gcsPath hq hup hcr henq
    have hq' : ¬ env.maxPagesPerCompany < t + n := by omega
    refine ⟨⟨env.newDocumentId, companyId, filename, ACCEPTED_CONTENT_TYPE,
      content.length, n, DocumentStatus.queued, none, gcsPath⟩, ?_, rfl⟩
    simp [uploadExecute, Document.create, hnot, hcp, hgt, hq', hup, hcr, henq]

/-- Witness for C6 at `uEnvQuota` (total 8, incoming 3, max 10: rejected with
`(8, 3, 10)`) and at `uEnvOk` with its exact-fit counterpart (total 7,
incoming 3, max 10: accepted). -/
theorem C6_page_quota_witness :
    uploadExecute uEnvQuota "c1" "a.pdf" "ab" "application/pdf" [] =
      ([UploadEffect.pagesCounted, UploadEffect.quotaRead],
        Except.error (UploadError.pageLimitExceeded 8 3 10)) ∧
    (∃ d, (uploadExecute { uEnvOk with maxUploadSizeBytes := 100 }
        "c1" "a.pdf" "ab" "application/pdf" []).2 = Except.ok d ∧
      d.num_pages = 3) := by
  constructor
  · exact (C6_page_quota uEnvQuota "c1" "a.pdf" "ab" 3 8 (by decide) rfl rfl).2.1
      (by decide)
  · exact (C6_page_quota { uEnvOk with maxUploadSizeBytes := 100 }
      "c1" "a.pdf" "ab" 3 7 (by decide) rfl rfl).2.2 "gs://doc-1" (by decide) rfl
      (fun _ => rfl) rfl

/-- C7: for an upload that passed validation and quota, a raising blob upload
propagates as a failure of the call with no document row and no queue entry
(the trace stops at the quota read); when the blob upload returns a storage
key and the remaining collaborators are up, the row is persisted with
status=queued, that storage key and the counted pages, and the job is
enqueued only after the row — the trace is exactly page-count, quota-read,
blob-upload, row-create, enqueue in that order. -/
theorem C7_no_partial_state (env : UploadEnv) (companyId filename : String)
    (content : FileContent) (n t : Nat)
    (hsz : content.length ≤ env.maxUploadSizeBytes)
    (hcp : env.count_pages content = Except.ok n)
    (hgt : env.get_total_pages companyId = Except.ok t)
    (hq : t + n ≤ env.maxPagesPerCompany) :
    (∀ e, env.upload companyId env.newDocumentId content ACCEPTED_CONTENT_TYPE =
        Except.error e →
      uploadExecute env companyId filename content ACCEPTED_CONTENT_TYPE [] =
        ([UploadEffect.pagesCounted, UploadEffect.quotaRead],
          Except.error (UploadError.infra e))) ∧
    (∀ gcsPath, env.upload companyId env.newDocumentId content ACCEPTED_CONTENT_TYPE =
        Except.ok gcsPath →
      (∀ d, env.create d = Except.ok ()) →
      env.enqueue = Except.ok () →
      ∃ d, uploadExecute env companyId filename content ACCEPTED_CONTENT_TYPE [] =
          ([UploadEffect.pagesCounted, UploadEffect.quotaRead,
            UploadEffect.blobUploaded gcsPath, UploadEffect.docCreated d,
            UploadEffect.jobEnqueued "process_document" env.newDocumentId
              companyId gcsPath],
            Except.ok d) ∧
        d.status = DocumentStatus.queued ∧ d.gcs_path = gcsPath ∧
        d.num_pages = n) := by
  have hnot : ¬ env.maxUploadSizeBytes < content.length := by omega
  have hq' : ¬ env.maxPagesPerCompany < t + n := by omega
  constructor
  · intro e hup
    simp [uploadExecute, Document.create, hnot, hcp, hgt, hq', hup]
  · intro gcsPath hup hcr henq
    refine ⟨⟨env.newDocumentId, companyId, filename, ACCEPTED_CONTENT_TYPE,
      content.length, n, DocumentStatus.queued, none, gcsPath⟩, ?_, rfl, rfl, rfl⟩
    simp [uploadExecute, Document.create, hnot, hcp, hgt, hq', hup, hcr, henq]

/-- Witness for C7: the raising blob store of `uEnvBlobDown` aborts with no
row and no queue entry; the healthy `uEnvOk` (with a 100-byte cap) persists
and enqueues in order. -/
theorem C7_no_partial_state_witness :
    uploadExecute uEnvBlobDown "c1" "a.pdf" "ab" "application/pdf" [] =
      ([UploadEffect.pagesCounted, UploadEffect.quotaRead],
        Except.error (UploadError.infra "gcs down")) ∧
    (∃ d, uploadExecute { uEnvOk with maxUploadSizeBytes := 100 }
        "c1" "a.pdf" "ab" "application/pdf" [] =
        ([UploadEffect.pagesCounted, UploadEffect.quotaRead,
          UploadEffect.blobUploaded "gs://doc-1", UploadEffect.docCreated d,
          UploadEffect.jobEnqueued "process_document" "doc-1" "c1" "gs://doc-1"],
          Except.ok d) ∧
      d.status = DocumentStatus.queued ∧ d.gcs_path = "gs://doc-1" ∧
      d.num_pages = 3) := by
  constructor
  · exact (C7_no_partial_state uEnvBlobDown "c1" "a.pdf" "ab" 3 7 (by decide)
      rfl rfl (by decide)).1 "gcs down" rfl
  · exact (C7_no_partial_state { uEnvOk with maxUploadSizeBytes := 100 }
      "c1" "a.pdf" "ab" 3 7 (by decide) rfl rfl (by decide)).2 "gs://doc-1" rfl
      (fun _ => rfl) rfl

/-! ## Theorems: progress relay (C9) -/

/-- Unfolding equations for the relay loop. -/
theorem relayRun_timeout (rest : List RelayInput) :
    relayRun (RelayInput.timeout :: rest) =
      (SseEvent.heartbeat :: (relayRun rest).1, (relayRun rest).2) := rfl

theorem relayRun_fault (e : String) (rest : List RelayInput) :
    relayRun (RelayInput.fault e :: rest) = ([SseEvent.errorEvent e], true) := rfl

theorem relayRun_parse_error (e : String) (rest : List RelayInput) :
    relayRun (RelayInput.message (Except.error e) :: rest) =
      ([SseEvent.errorEvent e], true) := rfl

theorem relayRun_msg (data : Event) (rest : List RelayInput) :
    relayRun (RelayInput.message (Except.ok data) :: rest) =
      (if data.done then ([SseEvent.progress data], true)
        else (SseEvent.progress data :: (relayRun rest).1, (relayRun rest).2)) := by
  by_cases hd : data.done <;> simp [relayRun, relayIter, hd]

/-- `getLast?` skips over a head when the tail is nonempty. -/
theorem getLast?_cons_of_ne_nil {α : Type} (a : α) {l : List α} (h : l ≠ []) :
    (a :: l).getLast? = l.getLast? := by
  cases l with
  | nil => exact absurd rfl h
  | cons x xs => exact List.getLast?_cons_cons

/-- Error events are terminal: helper induction for the relay loop. -/
theorem relayRun_error_last (inputs : List RelayInput) (e : String)
    (hmem : SseEvent.errorEvent e ∈ (relayRun inputs).1) :
    (relayRun inputs).1.getLast? = some (SseEvent.errorEvent e) := by
  induction inputs with
  | nil => simp [relayRun] at hmem
  | cons inp rest ih =>
    cases inp with
    | timeout =>
      rw [relayRun_timeout] at hmem ⊢
      show (SseEvent.heartbeat :: (relayRun rest).1).getLast?
        = some (SseEvent.errorEvent e)
      have hmem' : SseEvent.errorEvent e ∈ (relayRun rest).1 := by
        rcases List.mem_cons.mp hmem with h | h
        · exact absurd h (by simp)
        · exact h
      have hne : (relayRun rest).1 ≠ [] := by
        intro h0
        rw [h0] at hmem'
        simp at hmem'
      rw [getLast?_cons_of_ne_nil _ hne]
      exact ih hmem'
    | fault e' =>
      rw [relayRun_fault] at hmem ⊢
      simp at hmem
      simp [hmem]
    | message parsed =>
      cases parsed with
      | error e' =>
        rw [relayRun_parse_error] at hmem ⊢
        simp at hmem
        simp [hmem]
      | ok data =>
        cases hd : data.done with
        | true =>
          rw [relayRun_msg] at hmem
          simp [hd] at hmem
        | false =>
          rw [relayRun_msg] at hmem ⊢
          simp only [hd, Bool.false_eq_true, if_false] at hmem ⊢
          show (SseEvent.progress data :: (relayRun rest).1).getLast?
            = some (SseEvent.errorEvent e)
          have hmem' : SseEvent.errorEvent e ∈ (relayRun rest).1 := by
            rcases List.mem_cons.mp hmem with h | h
            · exact absurd h (by simp)
            · exact h
          have hne : (relayRun rest).1 ≠ [] := by
            intro h0
            rw [h0] at hmem'
            simp at hmem'
          rw [getLast?_cons_of_ne_nil _ hne]
          exact ih hmem'

/-- C9: every loop iteration of the progress relay consumes one pull outcome:
a timeout yields a heartbeat and continues; a received (well-parsed) message
is forwarded as a progress event and the loop stops iff the message's done
flag is true; a parse failure or any other error yields an error event and
stops; and the scoped broker subscription is released on every exit path.
An error event, when emitted, is always the last event of the stream. -/
theorem C9_relay_loop :
    (∀ inputs, (relayRun inputs).2 = true) ∧
    (∀ rest, relayRun (RelayInput.timeout :: rest) =
      (SseEvent.heartbeat :: (relayRun rest).1, (relayRun rest).2)) ∧
    (∀ (data : Event) rest, relayRun (RelayInput.message (Except.ok data) :: rest) =
      (if data.done then ([SseEvent.progress data], true)
        else (SseEvent.progress data :: (relayRun rest).1, (relayRun rest).2))) ∧
    (∀ e rest, relayRun (RelayInput.message (Except.error e) :: rest) =
      ([SseEvent.errorEvent e], true)) ∧
    (∀ e rest, relayRun (RelayInput.fault e :: rest) =
      ([SseEvent.errorEvent e], true)) ∧
    (∀ inputs e, SseEvent.errorEvent e ∈ (relayRun inputs).1 →
      (relayRun inputs).1.getLast? = some (SseEvent.errorEvent e)) := by
  refine ⟨?_, ?_, ?_, ?_, ?_, fun inputs e h => relayRun_error_last inputs e h⟩
  · intro inputs
    induction inputs with
    | nil => rfl
    | cons inp rest ih =>
      cases inp with
      | timeout => simpa [relayRun, relayIter] using ih
      | fault e => rfl
      | message parsed =>
        cases parsed with
        | error e => rfl
        | ok data =>
          by_cases hd : data.done
          · simp [relayRun, relayIter, hd]
          · simpa [relayRun, relayIter, hd] using ih
  · intro rest; rfl
  · intro data rest
    by_cases hd : data.done
    · simp [relayRun, relayIter, hd]
    · simp [relayRun, relayIter, hd]
  · intro e rest; rfl
  · intro e rest; rfl

/-- Witness for C9 on a concrete trace: timeout, a non-terminal progress
message, a terminal (done) progress message — heartbeat, progress, progress,
stream closed with the subscription released. -/
theorem C9_relay_loop_witness :
    relayRun [RelayInput.timeout,
      RelayInput.message (Except.ok ⟨"d", "vectorizing", 40, "m", false⟩),
      RelayInput.message (Except.ok ⟨"d", "completed", 100, "fin", true⟩)] =
      ([SseEvent.heartbeat,
        SseEvent.progress ⟨"d", "vectorizing", 40, "m", false⟩,
        SseEvent.progress ⟨"d", "completed", 100, "fin", true⟩], true) := by
  have h1 := C9_relay_loop.2.1
    [RelayInput.message (Except.ok ⟨"d", "vectorizing", 40, "m", false⟩),
      RelayInput.message (Except.ok ⟨"d", "completed", 100, "fin", true⟩)]
  have h2 := C9_relay_loop.2.2.1 (⟨"d", "vectorizing", 40, "m", false⟩ : Event)
    [RelayInput.message (Except.ok ⟨"d", "completed", 100, "fin", true⟩)]
  have h3 := C9_relay_loop.2.2.1 (⟨"d", "completed", 100, "fin", true⟩ : Event)
    ([] : List RelayInput)
  simp at h2 h3
  rw [h1, h2, h3]

/-! ## Theorems: worker pipeline stage lemmas -/

/-- Gluing two non-decreasing progress sequences at a boundary value. -/
theorem chain'_le_append {xs ys : List Nat} (b : Nat)
    (hxs : List.Chain' (· ≤ ·) xs) (hys : List.Chain' (· ≤ ·) ys)
    (hx : ∀ x ∈ xs, x ≤ b) (hy : ∀ y ∈ ys, b ≤ y) :
    List.Chain' (· ≤ ·) (xs ++ ys) := by
  rw [List.chain'_append]
  refine ⟨hxs, hys, ?_⟩
  intro x hx' y hy'
  obtain ⟨hne, rfl⟩ := List.mem_getLast?_eq_getLast hx'
  exact le_trans (hx _ (List.getLast_mem hne)) (hy _ (List.mem_of_mem_head? hy'))

/-- A pointwise-monotone enumeration is a non-decreasing chain. -/
theorem chain'_le_range_map (f : Nat → Nat) (hf : ∀ i, f i ≤ f (i + 1)) (m : Nat) :
    List.Chain' (· ≤ ·) ((List.range m).map f) := by
  rw [List.chain'_map]
  cases m with
  | zero => simp
  | succ n =>
    rw [List.chain'_range_succ]
    intro i _
    exact hf i

/-! ## Theorems: the binary64 rounding model -/

theorem log2F_spec : ∀ fuel n : Nat, 0 < n → n ≤ fuel →
    2 ^ log2F fuel n ≤ n ∧ n < 2 ^ (log2F fuel n + 1) := by
  intro fuel
  induction fuel with
  | zero => intro n hn hf; omega
  | succ f ih =>
    intro n hn hf
    by_cases h1 : n ≤ 1
    · have : n = 1 := by omega
      subst this
      simp [log2F]
    · have hn2 : 0 < n / 2 := by omega
      have hf2 : n / 2 ≤ f := by omega
      obtain ⟨hlo, hhi⟩ := ih (n / 2) hn2 hf2
      have hstep : log2F (f + 1) n = log2F f (n / 2) + 1 := by
        simp [log2F, h1]
      rw [hstep]
      constructor
      · have : 2 ^ (log2F f (n / 2) + 1) = 2 * 2 ^ log2F f (n / 2) := by ring
        rw [this]
        omega
      · have : 2 ^ (log2F f (n / 2) + 1 + 1) = 2 * 2 ^ (log2F f (n / 2) + 1) := by ring
        rw [this]
        omega

theorem natLog2_spec (n : Nat) (hn : 0 < n) :
    2 ^ natLog2 n ≤ n ∧ n < 2 ^ (natLog2 n + 1) :=
  log2F_spec n n hn le_rfl

/-- Characterization of `ratLog2` over the rationals. -/
theorem ratLog2_spec (a b : Nat) (ha : 0 < a) (hb : 0 < b) :
    (2:ℚ) ^ ratLog2 a b ≤ (a : ℚ) / b ∧ (a : ℚ) / b < 2 ^ (ratLog2 a b + 1) := by
  obtain ⟨hla, hla'⟩ := natLog2_spec a ha
  obtain ⟨hlb, hlb'⟩ := natLog2_spec b hb
  have hbq : (0:ℚ) < b := by exact_mod_cast hb
  set la := natLog2 a with hladef
  set lb := natLog2 b with hlbdef
  have h2 : (2:ℚ) ≠ 0 := by norm_num
  unfold ratLog2
  by_cases hcond : b * 2 ^ la ≤ a * 2 ^ lb
  · simp only [hcond, if_true, ← hladef, ← hlbdef]
    constructor
    · rw [show ((la:ℤ) - lb) = ((la:ℕ):ℤ) - ((lb:ℕ):ℤ) from rfl, zpow_sub₀ h2,
        zpow_natCast, zpow_natCast, div_le_div_iff₀ (by positivity) hbq]
      exact_mod_cast Nat.mul_comm b (2 ^ la) ▸ hcond
    · rw [show ((la:ℤ) - lb + 1) = (((la+1):ℕ):ℤ) - ((lb:ℕ):ℤ) from by push_cast; ring,
        zpow_sub₀ h2, zpow_natCast, zpow_natCast, div_lt_div_iff₀ hbq (by positivity)]
      have hp : 0 < 2 ^ lb := Nat.pos_pow_of_pos lb (by norm_num)
      have h1 : a * 2 ^ lb < 2 ^ (la + 1) * 2 ^ lb :=
        (Nat.mul_lt_mul_right hp).mpr hla'
      have hnat : a * 2 ^ lb < 2 ^ (la + 1) * b :=
        lt_of_lt_of_le h1 (Nat.mul_le_mul_left _ hlb)
      exact_mod_cast hnat
  · simp only [hcond, if_false, ← hladef, ← hlbdef]
    push_neg at hcond
    constructor
    · rw [show ((la:ℤ) - lb - 1) = ((la:ℕ):ℤ) - (((lb+1):ℕ):ℤ) from by push_cast; ring,
        zpow_sub₀ h2, zpow_natCast, zpow_natCast, div_le_div_iff₀ (by positivity) hbq]
      have hnat : 2 ^ la * b ≤ a * 2 ^ (lb + 1) :=
        Nat.mul_le_mul hla (le_of_lt hlb')
      exact_mod_cast hnat
    · rw [show ((la:ℤ) - lb - 1 + 1) = ((la:ℕ):ℤ) - ((lb:ℕ):ℤ) from by ring,
        zpow_sub₀ h2, zpow_natCast, zpow_natCast, div_lt_div_iff₀ hbq (by positivity)]
      exact_mod_cast Nat.mul_comm (2 ^ la) b ▸ hcond

theorem rneDiv_ge_div (a b : Nat) : a / b ≤ rneDiv a b := by
  unfold rneDiv
  split_ifs <;> omega

theorem rneDiv_le_div_succ (a b : Nat) : rneDiv a b ≤ a / b + 1 := by
  unfold rneDiv
  split_ifs <;> omega

/-- An upper integer bound survives rounding to nearest. -/
theorem rneDiv_le (a b n : Nat) (hb : 0 < b) (h : a ≤ n * b) : rneDiv a b ≤ n := by
  have hq : a / b ≤ n := by
    have h1 := Nat.div_le_div_right (c := b) h
    have h2 : n * b / b = n := by field_simp
    omega
  rcases Nat.lt_or_ge (a / b) n with hlt | hge
  · exact le_trans (rneDiv_le_div_succ a b) (by omega)
  · have hqe : a / b = n := le_antisymm hq hge
    have hdm := Nat.div_add_mod a b
    have hcomm : b * n = n * b := Nat.mul_comm b n
    have hr : a % b = 0 := by
      rw [hqe] at hdm
      omega
    unfold rneDiv
    rw [if_pos (by omega : 2 * (a % b) < b)]
    omega

/-- A lower integer bound survives rounding to nearest. -/
theorem rneDiv_ge (a b n : Nat) (hb : 0 < b) (h : n * b ≤ a) : n ≤ rneDiv a b := by
  have h1 : n ≤ a / b := (Nat.le_div_iff_mul_le hb).mpr h
  exact le_trans h1 (rneDiv_ge_div a b)

/-- Integer multiples round to themselves. -/
theorem rneDiv_exact (n b : Nat) (hb : 0 < b) : rneDiv (n * b) b = n := by
  have hq : n * b / b = n := by field_simp
  have hr : n * b % b = 0 := Nat.mul_mod_left n b
  unfold rneDiv
  rw [hq, hr, if_pos (by omega : 2 * 0 < b)]

/-- Rounding to nearest is monotone across denominators:
`a / b ≤ c / d` (cross-multiplied) implies the rounded values compare. -/
theorem rneDiv_mono (a b c d : Nat) (hb : 0 < b) (hd : 0 < d)
    (h : a * d ≤ c * b) : rneDiv a b ≤ rneDiv c d := by
  rcases Nat.lt_or_ge (a / b) (c / d) with hlt | hge
  · exact le_trans (rneDiv_le_div_succ a b)
      (le_trans (by omega) (rneDiv_ge_div c d))
  · have hq : a / b ≤ c / d := by
      rw [Nat.le_div_iff_mul_le hd]
      have h1 : a / b * d ≤ a * d / b := by
        rw [Nat.le_div_iff_mul_le hb]
        have h0 : a / b * b ≤ a := Nat.div_mul_le_self a b
        calc a / b * d * b = a / b * b * d := by ring
          _ ≤ a * d := Nat.mul_le_mul_right d h0
      have h2 : a * d / b ≤ c * b / b := Nat.div_le_div_right h
      have h3 : c * b / b = c := by field_simp
      omega
    have hqe : a / b = c / d := le_antisymm hq hge
    have hab := Nat.div_add_mod a b
    have hcd := Nat.div_add_mod c d
    have hfr : (a % b) * d ≤ (c % d) * b := by
      have e1 : a * d = b * (a / b) * d + (a % b) * d := by
        conv_lhs => rw [← hab]
        ring
      have e2 : c * b = d * (c / d) * b + (c % d) * b := by
        conv_lhs => rw [← hcd]
        ring
      have e3 : b * (a / b) * d = d * (c / d) * b := by
        rw [hqe]
        ring
      omega
    unfold rneDiv
    split_ifs <;> try omega
    · exfalso
      rename_i hL1 hL2 hR1
      nlinarith [mul_lt_mul_of_pos_right hL2 hd, mul_lt_mul_of_pos_right hR1 hb, hfr]
    · exfalso
      rename_i hL1 hL2 hR1 hR2 hR3
      have ht : 2 * (c % d) = d := by omega
      have ht2 : 2 * (c % d) * b = d * b := by rw [ht]
      nlinarith [mul_lt_mul_of_pos_right hL2 hd, hfr, ht2]
    · exfalso
      rename_i hL1 hL2 hL3 hR1
      have ht : 2 * (a % b) = b := by omega
      have ht2 : 2 * (a % b) * d = b * d := by rw [ht]
      nlinarith [mul_lt_mul_of_pos_right hR1 hb, hfr, ht2]

theorem scaleDen_pos (b : Nat) (σ : Int) (hb : 0 < b) : 0 < scaleDen b σ := by
  unfold scaleDen
  split_ifs
  · exact hb
  · positivity

theorem two_zpow_toNat (σ : Int) (h : 0 ≤ σ) :
    ((2 ^ σ.toNat : ℕ) : ℚ) = (2:ℚ) ^ σ := by
  push_cast
  rw [← zpow_natCast (2:ℚ), Int.toNat_of_nonneg h]

/-- The scaled fraction has the intended value. -/
theorem scale_ratio (a b : Nat) (σ : Int) (hb : 0 < b) :
    ((scaleNum a σ : ℚ)) / (scaleDen b σ) = (a : ℚ) / b * (2:ℚ) ^ σ := by
  have hbq : (0:ℚ) < b := by exact_mod_cast hb
  unfold scaleNum scaleDen
  by_cases hσ : 0 ≤ σ
  · simp only [hσ, if_true]
    push_cast
    rw [show ((2:ℚ) ^ σ.toNat) = (2:ℚ) ^ σ from by
      rw [← zpow_natCast (2:ℚ), Int.toNat_of_nonneg hσ]]
    ring
  · simp only [hσ, if_false]
    push_cast
    rw [show ((2:ℚ) ^ (-σ).toNat) = (2:ℚ) ^ (-σ) from by
      rw [← zpow_natCast (2:ℚ), Int.toNat_of_nonneg (by omega)]]
    rw [zpow_neg]
    have hz : (2:ℚ) ^ σ ≠ 0 := zpow_ne_zero _ (by norm_num)
    field_simp

theorem two_zpow_ofNat (m : ℕ) : ((2 ^ m : ℕ) : ℚ) = (2:ℚ) ^ (m : ℤ) := by
  push_cast
  rw [zpow_natCast]

/-- Cast bridge: a rational ratio of naturals is below a natural iff the
cross-multiplied naturals compare. -/
theorem ratio_lt_nat (A B n : ℕ) (hB : 0 < B) :
    (A : ℚ) / B < (n : ℚ) ↔ A < n * B := by
  have hbq : (0:ℚ) < (B:ℚ) := by exact_mod_cast hB
  rw [div_lt_iff₀ hbq]
  exact_mod_cast Iff.rfl

theorem nat_le_ratio (A B n : ℕ) (hB : 0 < B) :
    (n : ℚ) ≤ (A : ℚ) / B ↔ n * B ≤ A := by
  have hbq : (0:ℚ) < (B:ℚ) := by exact_mod_cast hB
  rw [le_div_iff₀ hbq]
  exact_mod_cast Iff.rfl

theorem fpVal_nonneg (a b : Nat) : 0 ≤ fpVal a b := by
  unfold fpVal
  positivity

/-- The rounded value never reaches past the binade above the exponent. -/
theorem fpVal_le_next (a b : Nat) (ha : 0 < a) (hb : 0 < b) :
    fpVal a b ≤ (2:ℚ) ^ (fpExp a b + 1) := by
  have hB : 0 < scaleDen b (52 - fpExp a b) := scaleDen_pos b _ hb
  have hle : ratLog2 a b ≤ fpExp a b := le_max_left _ _
  have hub : (a:ℚ) / b < 2 ^ (fpExp a b + 1) :=
    lt_of_lt_of_le (ratLog2_spec a b ha hb).2
      (zpow_le_zpow_right₀ one_le_two (by omega))
  have h53 : ((scaleNum a (52 - fpExp a b) : ℕ) : ℚ) / (scaleDen b (52 - fpExp a b)) <
      ((2 ^ 53 : ℕ) : ℚ) := by
    rw [scale_ratio a b _ hb, two_zpow_ofNat]
    calc (a:ℚ) / b * (2:ℚ) ^ (52 - fpExp a b)
        < 2 ^ (fpExp a b + 1) * (2:ℚ) ^ (52 - fpExp a b) := by
          gcongr
      _ = (2:ℚ) ^ ((53:ℕ) : ℤ) := by
          rw [← zpow_add₀ (by norm_num : (2:ℚ) ≠ 0)]
          congr 1
          omega
  have hA : scaleNum a (52 - fpExp a b) < 2 ^ 53 * scaleDen b (52 - fpExp a b) :=
    (ratio_lt_nat _ _ _ hB).mp h53
  have hm : fpMantissa a b ≤ 2 ^ 53 :=
    rneDiv_le _ _ _ hB (by omega)
  unfold fpVal
  calc (fpMantissa a b : ℚ) * (2:ℚ) ^ (fpExp a b - 52)
      ≤ ((2 ^ 53 : ℕ) : ℚ) * (2:ℚ) ^ (fpExp a b - 52) := by
        gcongr
    _ = (2:ℚ) ^ (fpExp a b + 1) := by
        rw [two_zpow_ofNat, ← zpow_add₀ (by norm_num : (2:ℚ) ≠ 0)]
        congr 1
        omega

/-- Away from the subnormal clamp the rounded value keeps its binade's floor. -/
theorem two_zpow_le_fpVal (a b : Nat) (ha : 0 < a) (hb : 0 < b)
    (hcl : -1022 ≤ ratLog2 a b) : (2:ℚ) ^ fpExp a b ≤ fpVal a b := by
  have hB : 0 < scaleDen b (52 - fpExp a b) := scaleDen_pos b _ hb
  have hee : fpExp a b = ratLog2 a b := max_eq_left hcl
  have hlb : (2:ℚ) ^ fpExp a b ≤ (a:ℚ) / b := by
    rw [hee]
    exact (ratLog2_spec a b ha hb).1
  have h52 : ((2 ^ 52 : ℕ) : ℚ) ≤
      ((scaleNum a (52 - fpExp a b) : ℕ) : ℚ) / (scaleDen b (52 - fpExp a b)) := by
    rw [scale_ratio a b _ hb, two_zpow_ofNat]
    calc (2:ℚ) ^ ((52:ℕ) : ℤ)
        = (2:ℚ) ^ fpExp a b * (2:ℚ) ^ (52 - fpExp a b) := by
          rw [← zpow_add₀ (by norm_num : (2:ℚ) ≠ 0)]
          congr 1
          omega
      _ ≤ (a:ℚ) / b * (2:ℚ) ^ (52 - fpExp a b) := by
          gcongr
  have hA : 2 ^ 52 * scaleDen b (52 - fpExp a b) ≤ scaleNum a (52 - fpExp a b) :=
    (nat_le_ratio _ _ _ hB).mp h52
  have hm : 2 ^ 52 ≤ fpMantissa a b := rneDiv_ge _ _ _ hB hA
  unfold fpVal
  calc (2:ℚ) ^ fpExp a b
      = ((2 ^ 52 : ℕ) : ℚ) * (2:ℚ) ^ (fpExp a b - 52) := by
        rw [two_zpow_ofNat, ← zpow_add₀ (by norm_num : (2:ℚ) ≠ 0)]
        congr 1
        omega
    _ ≤ (fpMantissa a b : ℚ) * (2:ℚ) ^ (fpExp a b - 52) := by
        gcongr

theorem ratLog2_mono (a b c d : Nat) (ha : 0 < a) (hb : 0 < b) (hc : 0 < c)
    (hd : 0 < d) (h : (a:ℚ) / b ≤ (c:ℚ) / d) : ratLog2 a b ≤ ratLog2 c d := by
  have h1 := (ratLog2_spec a b ha hb).1
  have h2 := (ratLog2_spec c d hc hd).2
  have h3 : (2:ℚ) ^ ratLog2 a b < 2 ^ (ratLog2 c d + 1) :=
    lt_of_le_of_lt (le_trans h1 h) h2
  have := (zpow_lt_zpow_iff_right₀ (by norm_num : (1:ℚ) < 2)).mp h3
  omega

theorem fpExp_mono (a b c d : Nat) (ha : 0 < a) (hb : 0 < b) (hc : 0 < c)
    (hd : 0 < d) (h : (a:ℚ) / b ≤ (c:ℚ) / d) : fpExp a b ≤ fpExp c d :=
  max_le_max (ratLog2_mono a b c d ha hb hc hd h) le_rfl

/-- Same-exponent monotonicity of the rounded value. -/
theorem fpVal_mono_eq_exp (a b c d : Nat) (hb : 0 < b) (hd : 0 < d)
    (hee : fpExp a b = fpExp c d) (h : (a:ℚ) / b ≤ (c:ℚ) / d) :
    fpVal a b ≤ fpVal c d := by
  have hB : 0 < scaleDen b (52 - fpExp a b) := scaleDen_pos b _ hb
  have hD : 0 < scaleDen d (52 - fpExp c d) := scaleDen_pos d _ hd
  have hBq : (0:ℚ) < (scaleDen b (52 - fpExp a b) : ℚ) := by exact_mod_cast hB
  have hDq : (0:ℚ) < (scaleDen d (52 - fpExp c d) : ℚ) := by exact_mod_cast hD
  have hratio : ((scaleNum a (52 - fpExp a b) : ℕ) : ℚ) / scaleDen b (52 - fpExp a b) ≤
      ((scaleNum c (52 - fpExp c d) : ℕ) : ℚ) / scaleDen d (52 - fpExp c d) := by
    rw [scale_ratio a b _ hb, scale_ratio c d _ hd, hee]
    gcongr
  rw [div_le_div_iff₀ hBq hDq] at hratio
  have hcross : scaleNum a (52 - fpExp a b) * scaleDen d (52 - fpExp c d) ≤
      scaleNum c (52 - fpExp c d) * scaleDen b (52 - fpExp a b) := by
    exact_mod_cast hratio
  have hm : fpMantissa a b ≤ fpMantissa c d :=
    rneDiv_mono _ _ _ _ hB hD hcross
  unfold fpVal
  rw [hee]
  gcongr

/-- Monotonicity of rounding to the nearest double. -/
theorem fpVal_mono (a b c d : Nat) (ha : 0 < a) (hb : 0 < b) (hc : 0 < c)
    (hd : 0 < d) (h : (a:ℚ) / b ≤ (c:ℚ) / d) : fpVal a b ≤ fpVal c d := by
  rcases lt_or_eq_of_le (fpExp_mono a b c d ha hb hc hd h) with hlt | hee
  · have h1 : fpVal a b ≤ (2:ℚ) ^ (fpExp a b + 1) := fpVal_le_next a b ha hb
    have hcl : -1022 ≤ ratLog2 c d := by
      by_contra hcon
      push_neg at hcon
      have : fpExp c d = -1022 := max_eq_right (by omega)
      have : fpExp a b ≥ -1022 := le_max_right _ _
      omega
    have h2 : (2:ℚ) ^ fpExp c d ≤ fpVal c d := two_zpow_le_fpVal c d hc hd hcl
    calc fpVal a b ≤ (2:ℚ) ^ (fpExp a b + 1) := h1
      _ ≤ (2:ℚ) ^ fpExp c d := zpow_le_zpow_right₀ one_le_two (by omega)
      _ ≤ fpVal c d := h2
  · exact fpVal_mono_eq_exp a b c d hb hd hee h

/-- Uniqueness characterization of `ratLog2`. -/
theorem ratLog2_eq (a b : Nat) (l : ℤ) (ha : 0 < a) (hb : 0 < b)
    (h1 : (2:ℚ) ^ l ≤ (a:ℚ) / b) (h2 : (a:ℚ) / b < 2 ^ (l + 1)) :
    ratLog2 a b = l := by
  obtain ⟨s1, s2⟩ := ratLog2_spec a b ha hb
  have hA := (zpow_lt_zpow_iff_right₀ (by norm_num : (1:ℚ) < 2)).mp
    (lt_of_le_of_lt s1 h2)
  have hB := (zpow_lt_zpow_iff_right₀ (by norm_num : (1:ℚ) < 2)).mp
    (lt_of_le_of_lt h1 s2)
  omega

/-- Integers up to `2^52` times the denominator round to themselves. -/
theorem fpVal_int (n b : Nat) (hn : 0 < n) (hn52 : n ≤ 2 ^ 52) (hb : 0 < b) :
    fpVal (n * b) b = (n : ℚ) := by
  have hbq : (0:ℚ) < (b:ℚ) := by exact_mod_cast hb
  obtain ⟨hl1, hl2⟩ := natLog2_spec n hn
  have hval : ((n * b : ℕ) : ℚ) / b = (n : ℚ) := by
    push_cast
    field_simp
  have hL : ratLog2 (n * b) b = (natLog2 n : ℤ) := by
    apply ratLog2_eq _ _ _ (Nat.mul_pos hn hb) hb
    · rw [hval, ← two_zpow_ofNat]
      exact_mod_cast hl1
    · rw [hval, show ((natLog2 n : ℤ) + 1) = (((natLog2 n + 1 : ℕ)) : ℤ) from by
        push_cast; ring, ← two_zpow_ofNat]
      exact_mod_cast hl2
  have hl52 : natLog2 n ≤ 52 := by
    by_contra hcon
    push_neg at hcon
    have : 2 ^ 53 ≤ 2 ^ natLog2 n := Nat.pow_le_pow_right (by norm_num) (by omega)
    have : 2 ^ 52 < n := by
      calc 2 ^ 52 < 2 ^ 53 := by norm_num
        _ ≤ 2 ^ natLog2 n := this
        _ ≤ n := hl1
    omega
  have he : fpExp (n * b) b = (natLog2 n : ℤ) := by
    rw [fpExp, hL]
    exact max_eq_left (by omega)
  have hσ : (0:ℤ) ≤ 52 - fpExp (n * b) b := by
    rw [he]
    omega
  have hsn : scaleNum (n * b) (52 - fpExp (n * b) b) =
      n * 2 ^ (52 - fpExp (n * b) b).toNat * b := by
    unfold scaleNum
    rw [if_pos hσ]
    ring
  have hsd : scaleDen b (52 - fpExp (n * b) b) = b := by
    unfold scaleDen
    rw [if_pos hσ]
  have hm : fpMantissa (n * b) b = n * 2 ^ (52 - fpExp (n * b) b).toNat := by
    unfold fpMantissa
    rw [hsn, hsd]
    exact rneDiv_exact _ _ hb
  unfold fpVal
  rw [hm]
  push_cast
  rw [show ((2:ℚ) ^ (52 - fpExp (n * b) b).toNat) = (2:ℚ) ^ (52 - fpExp (n * b) b) from by
    rw [← zpow_natCast (2:ℚ), Int.toNat_of_nonneg hσ]]
  rw [mul_assoc, ← zpow_add₀ (by norm_num : (2:ℚ) ≠ 0)]
  norm_num

theorem rneDiv_zero (b : Nat) : rneDiv 0 b = 0 := by
  unfold rneDiv
  simp

theorem scaleNum_zero (σ : Int) : scaleNum 0 σ = 0 := by
  unfold scaleNum
  split_ifs <;> simp

theorem scaleNum_pos (a : Nat) (σ : Int) (ha : 0 < a) : 0 < scaleNum a σ := by
  unfold scaleNum
  split_ifs
  · positivity
  · exact ha

theorem fpMantissa_zero (b : Nat) : fpMantissa 0 b = 0 := by
  unfold fpMantissa
  rw [scaleNum_zero]
  exact rneDiv_zero _

theorem fpVal_zero (b : Nat) : fpVal 0 b = 0 := by
  unfold fpVal
  rw [fpMantissa_zero]
  simp

theorem fpTrunc_zero (b : Nat) : fpTrunc 0 b = 0 := by
  unfold fpTrunc
  rw [fpMantissa_zero]
  split_ifs <;> simp

/-- The truncation is exactly the floor of the rounded value. -/
theorem fpTrunc_char (a b : Nat) :
    (fpTrunc a b : ℚ) ≤ fpVal a b ∧ fpVal a b < fpTrunc a b + 1 := by
  by_cases hσ : (0:ℤ) ≤ 52 - fpExp a b
  · have hs' : (((52 - fpExp a b).toNat : ℕ) : ℤ) = 52 - fpExp a b :=
      Int.toNat_of_nonneg hσ
    have hval : fpVal a b =
        (fpMantissa a b : ℚ) / ((2 ^ (52 - fpExp a b).toNat : ℕ) : ℚ) := by
      unfold fpVal
      rw [show fpExp a b - 52 = -(((52 - fpExp a b).toNat : ℕ) : ℤ) from by omega,
        zpow_neg, ← two_zpow_ofNat, div_eq_mul_inv]
    have htr : fpTrunc a b = fpMantissa a b / 2 ^ (52 - fpExp a b).toNat := by
      unfold fpTrunc
      rw [if_pos hσ]
    have hp : 0 < 2 ^ (52 - fpExp a b).toNat := Nat.pos_pow_of_pos _ (by norm_num)
    constructor
    · rw [hval, htr, nat_le_ratio _ _ _ hp]
      exact Nat.div_mul_le_self _ _
    · rw [hval, htr, show ((fpMantissa a b / 2 ^ (52 - fpExp a b).toNat : ℕ) : ℚ) + 1 =
        ((fpMantissa a b / 2 ^ (52 - fpExp a b).toNat + 1 : ℕ) : ℚ) from by push_cast; ring,
        ratio_lt_nat _ _ _ hp]
      have hdm := Nat.div_add_mod (fpMantissa a b) (2 ^ (52 - fpExp a b).toNat)
      have hlt : fpMantissa a b % 2 ^ (52 - fpExp a b).toNat <
          2 ^ (52 - fpExp a b).toNat := Nat.mod_lt _ hp
      have hcm : 2 ^ (52 - fpExp a b).toNat * (fpMantissa a b / 2 ^ (52 - fpExp a b).toNat)
          = (fpMantissa a b / 2 ^ (52 - fpExp a b).toNat) * 2 ^ (52 - fpExp a b).toNat :=
        Nat.mul_comm _ _
      have hdist : (fpMantissa a b / 2 ^ (52 - fpExp a b).toNat + 1) *
            2 ^ (52 - fpExp a b).toNat
          = fpMantissa a b / 2 ^ (52 - fpExp a b).toNat * 2 ^ (52 - fpExp a b).toNat
            + 2 ^ (52 - fpExp a b).toNat := by ring
      omega
  · push_neg at hσ
    have hnn : (0:ℤ) ≤ fpExp a b - 52 := by omega
    have heq : ((fpMantissa a b * 2 ^ (fpExp a b - 52).toNat : ℕ) : ℚ) = fpVal a b := by
      unfold fpVal
      push_cast
      rw [show ((2:ℚ) ^ (fpExp a b - 52).toNat) = (2:ℚ) ^ (fpExp a b - 52) from by
        rw [← zpow_natCast (2:ℚ), Int.toNat_of_nonneg hnn]]
    have htr : fpTrunc a b = fpMantissa a b * 2 ^ (fpExp a b - 52).toNat := by
      unfold fpTrunc
      rw [if_neg (by omega)]
    rw [htr]
    constructor
    · rw [heq]
    · rw [heq]
      linarith [heq.symm.le]

theorem fpTrunc_le_of_fpVal_le (a b n : Nat) (h : fpVal a b ≤ (n:ℚ)) :
    fpTrunc a b ≤ n := by
  have hc := (fpTrunc_char a b).1
  exact_mod_cast le_trans hc h

theorem fpTrunc_mono_val (a b c d : Nat) (h : fpVal a b ≤ fpVal c d) :
    fpTrunc a b ≤ fpTrunc c d := by
  have h1 := (fpTrunc_char a b).1
  have h2 := (fpTrunc_char c d).2
  have h3 : (fpTrunc a b : ℚ) < ((fpTrunc c d + 1 : ℕ) : ℚ) := by
    push_cast
    linarith
  have h4 : fpTrunc a b < fpTrunc c d + 1 := by exact_mod_cast h3
  omega

theorem fpTrunc_eq_int (a b n : Nat) (h : fpVal a b = (n:ℚ)) : fpTrunc a b = n := by
  obtain ⟨h1, h2⟩ := fpTrunc_char a b
  rw [h] at h1 h2
  have hle : fpTrunc a b ≤ n := by exact_mod_cast h1
  have hlt : n < fpTrunc a b + 1 := by
    have : (n:ℚ) < ((fpTrunc a b + 1 : ℕ) : ℚ) := by push_cast; linarith
    exact_mod_cast this
  omega

/-- The fraction handed to the second rounding has value `75 · fl(k/t)`. -/
theorem pyProgress75_ratio (k t : Nat) :
    ((scaleNum (75 * fpMantissa k t) (fpExp k t - 52) : ℕ) : ℚ) /
      (scaleDen 1 (fpExp k t - 52)) = 75 * fpVal k t := by
  rw [scale_ratio _ 1 _ (by norm_num)]
  unfold fpVal
  push_cast
  ring

/-- The published batch percentage is monotone in the batch index. -/
theorem pyProgress75_mono (k k' t : Nat) (h : k ≤ k') :
    pyProgress75 k t ≤ pyProgress75 k' t := by
  unfold pyProgress75
  by_cases h0 : k = 0 ∨ t = 0
  · rw [if_pos h0]
    exact Nat.zero_le _
  · have hk : 0 < k := by omega
    have ht : 0 < t := by omega
    have hk' : 0 < k' := by omega
    have h0' : ¬(k' = 0 ∨ t = 0) := by omega
    rw [if_neg h0, if_neg h0']
    have hv : fpVal k t ≤ fpVal k' t := by
      apply fpVal_mono k t k' t hk ht hk' ht
      gcongr
    by_cases hm : fpMantissa k t = 0
    · rw [show (75 * fpMantissa k t) = 0 from by omega, scaleNum_zero, fpTrunc_zero]
      exact Nat.zero_le _
    · have hmp : 0 < fpMantissa k t := by omega
      have hvp : 0 < fpVal k t := by
        unfold fpVal
        apply mul_pos
        · exact_mod_cast hmp
        · positivity
      have hm' : 0 < fpMantissa k' t := by
        by_contra h0m
        push_neg at h0m
        have h00 : fpMantissa k' t = 0 := by omega
        have : fpVal k' t = 0 := by
          unfold fpVal
          rw [h00]
          simp
        linarith
      apply fpTrunc_mono_val
      apply fpVal_mono
      · exact scaleNum_pos _ _ (by positivity)
      · exact scaleDen_pos 1 _ (by norm_num)
      · exact scaleNum_pos _ _ (by positivity)
      · exact scaleDen_pos 1 _ (by norm_num)
      · rw [pyProgress75_ratio, pyProgress75_ratio]
        linarith

/-- Within the batch range the published percentage offset stays at most 75. -/
theorem pyProgress75_le (k t : Nat) (hkt : k ≤ t) : pyProgress75 k t ≤ 75 := by
  unfold pyProgress75
  by_cases h0 : k = 0 ∨ t = 0
  · rw [if_pos h0]
    omega
  · have hk : 0 < k := by omega
    have ht : 0 < t := by omega
    rw [if_neg h0]
    apply fpTrunc_le_of_fpVal_le
    by_cases hm : fpMantissa k t = 0
    · rw [show (75 * fpMantissa k t) = 0 from by omega, scaleNum_zero, fpVal_zero]
      norm_num
    · have hmp : 0 < fpMantissa k t := by omega
      have h1 : fpVal k t ≤ 1 := by
        have hmono := fpVal_mono k t t t hk ht ht ht (by gcongr)
        have hone : fpVal (1 * t) t = ((1:ℕ):ℚ) := fpVal_int 1 t one_pos (by norm_num) ht
        rw [one_mul] at hone
        rw [hone] at hmono
        exact_mod_cast hmono
      have h75 : fpVal (75 * 1) 1 = ((75:ℕ):ℚ) :=
        fpVal_int 75 1 (by norm_num) (by norm_num) one_pos
      have hstep : fpVal (scaleNum (75 * fpMantissa k t) (fpExp k t - 52))
          (scaleDen 1 (fpExp k t - 52)) ≤ fpVal (75 * 1) 1 := by
        apply fpVal_mono
        · exact scaleNum_pos _ _ (by positivity)
        · exact scaleDen_pos 1 _ (by norm_num)
        · norm_num
        · norm_num
        · rw [pyProgress75_ratio]
          push_cast
          norm_num
          linarith
      exact le_trans hstep (le_of_eq h75)

/-- After the final batch the published percentage offset is exactly 75
(`t/t` rounds to exactly 1.0 and `1.0 * 75` is exact). -/
theorem pyProgress75_self (t : Nat) (ht : 0 < t) : pyProgress75 t t = 75 := by
  unfold pyProgress75
  rw [if_neg (by omega)]
  apply fpTrunc_eq_int
  have h1 : fpVal t t = 1 := by
    have hone : fpVal (1 * t) t = ((1:ℕ):ℚ) := fpVal_int 1 t one_pos (by norm_num) ht
    rw [one_mul] at hone
    rw [hone]
    norm_num
  have hm : 0 < fpMantissa t t := by
    by_contra h0
    push_neg at h0
    have h00 : fpMantissa t t = 0 := by omega
    have hz : fpVal t t = 0 := by
      unfold fpVal
      rw [h00]
      simp
    rw [h1] at hz
    norm_num at hz
  have h75 : fpVal (75 * 1) 1 = ((75:ℕ):ℚ) :=
    fpVal_int 75 1 (by norm_num) (by norm_num) one_pos
  have posA : 0 < scaleNum (75 * fpMantissa t t) (fpExp t t - 52) :=
    scaleNum_pos _ _ (by positivity)
  have hr : ((scaleNum (75 * fpMantissa t t) (fpExp t t - 52) : ℕ) : ℚ) /
      (scaleDen 1 (fpExp t t - 52)) = ((75 * 1 : ℕ) : ℚ) / ((1 : ℕ) : ℚ) := by
    rw [pyProgress75_ratio, h1]
    push_cast
    norm_num
  have hle1 := fpVal_mono _ _ _ _ posA (scaleDen_pos 1 _ one_pos)
    (by norm_num : 0 < 75 * 1) one_pos (le_of_eq hr)
  have hle2 := fpVal_mono _ _ _ _ (by norm_num : 0 < 75 * 1) one_pos posA
    (scaleDen_pos 1 _ one_pos) (le_of_eq hr.symm)
  have : fpVal (scaleNum (75 * fpMantissa t t) (fpExp t t - 52))
      (scaleDen 1 (fpExp t t - 52)) = fpVal (75 * 1) 1 := le_antisymm hle1 hle2
  rw [this, h75]

/-- The IEEE-evaluated `int((k / t) * 75)` is not the exact floor
`75 * k / t`: with 15 batches, after batch 11 the binary64 product is
`54.999999999999993`, truncating to 54, while the exact floor is 55. -/
theorem pyProgress75_ne_exact_floor :
    pyProgress75 11 15 = 54 ∧ 75 * 11 / 15 = 55 := by
  decide

namespace ProcessDocument

/-- What `_download` does to the state, for every environment: it only appends
events, all of them non-terminal "downloading" events with non-decreasing
progress at most 10; on success the two events are exactly the 0% and 10%
ones. -/
theorem download_spec (env : WorkerEnv) (ch dId g : String) (s : PState) :
    ∃ new, (download env ch dId g s).1 = { s with published := s.published ++ new } ∧
      (∀ ev ∈ new, ev.done = false ∧ ev.step = "downloading" ∧ ev.progress ≤ 10) ∧
      List.Chain' (· ≤ ·) (new.map Event.progress) ∧
      ∀ c, (download env ch dId g s).2 = Except.ok c →
        new = [mkEvent dId "downloading" 0 "Telechargement du fichier..." false,
               mkEvent dId "downloading" 10 "Fichier telecharge" false] := by
  unfold download publish_progress WorkerEnv.runPublish bindE
  cases h1 : env.publish ch
      (mkEvent dId "downloading" 0 "Telechargement du fichier..." false) with
  | error e =>
    refine ⟨[], by simp [h1], by simp, by simp, ?_⟩
    intro c hc
    simp [h1] at hc
  | ok u =>
    cases h2 : env.download g with
    | error e =>
      refine ⟨[mkEvent dId "downloading" 0 "Telechargement du fichier..." false],
        by simp [h1, h2], ?_, by simp, ?_⟩
      · intro ev hev
        simp at hev
        simp [hev, mkEvent]
      · intro c hc
        simp [h1, h2] at hc
    | ok content =>
      cases h3 : env.publish ch
          (mkEvent dId "downloading" 10 "Fichier telecharge" false) with
      | error e =>
        refine ⟨[mkEvent dId "downloading" 0 "Telechargement du fichier..." false],
          by simp [h1, h2, h3], ?_, by simp, ?_⟩
        · intro ev hev
          simp at hev
          simp [hev, mkEvent]
        · intro c hc
          simp [h1, h2, h3] at hc
      | ok u2 =>
        refine ⟨[mkEvent dId "downloading" 0 "Telechargement du fichier..." false,
          mkEvent dId "downloading" 10 "Fichier telecharge" false],
          by simp [h1, h2, h3], ?_, by simp [mkEvent], ?_⟩
        · intro ev hev
          simp at hev
          rcases hev with h | h <;> simp [h, mkEvent]
        · intro c hc
          rfl

/-- What `_chunk` does to the state, for every environment: it only appends
non-terminal "vectorizing" events with non-decreasing progress between 10 and
20, the row either keeps its fields or holds (vectorizing, no error), nothing
is indexed or deleted; on success the status is vectorizing with the error
cleared and the events are exactly the 10% and 20% ones. -/
theorem chunk_spec (env : WorkerEnv) (ch dId cId : String) (content : FileContent)
    (s : PState) :
    ∃ new, (chunk env ch dId cId content s).1.published = s.published ++ new ∧
      (chunk env ch dId cId content s).1.indexed = s.indexed ∧
      (chunk env ch dId cId content s).1.blobDeleted = s.blobDeleted ∧
      (((chunk env ch dId cId content s).1.docStatus = s.docStatus ∧
          (chunk env ch dId cId content s).1.docError = s.docError) ∨
        ((chunk env ch dId cId content s).1.docStatus = DocumentStatus.vectorizing ∧
          (chunk env ch dId cId content s).1.docError = none)) ∧
      (∀ ev ∈ new, ev.done = false ∧ ev.step = "vectorizing" ∧
        10 ≤ ev.progress ∧ ev.progress ≤ 20) ∧
      List.Chain' (· ≤ ·) (new.map Event.progress) ∧
      ∀ cs, (chunk env ch dId cId content s).2 = Except.ok cs →
        (chunk env ch dId cId content s).1.docStatus = DocumentStatus.vectorizing ∧
        (chunk env ch dId cId content s).1.docError = none ∧
        new = [mkEvent dId "vectorizing" 10 "Decoupage du document en chunks..." false,
          mkEvent dId "vectorizing" 20 (chunkCountMessage cs.length) false] := by
  unfold chunk publish_progress WorkerEnv.runPublish WorkerEnv.runUpdateStatus chunk_pdf bindE
  cases h1 : env.updateStatus DocumentStatus.vectorizing none with
  | error e =>
    refine ⟨[], by simp [h1], by simp [h1], by simp [h1], by simp [h1], by simp,
      by simp, ?_⟩
    intro cs hc
    simp [h1] at hc
  | ok u =>
    cases h2 : env.publish ch
        (mkEvent dId "vectorizing" 10 "Decoupage du document en chunks..." false) with
    | error e =>
      refine ⟨[], by simp [h1, h2], by simp [h1, h2], by simp [h1, h2],
        Or.inr (by simp [h1, h2]), by simp, by simp, ?_⟩
      intro cs hc
      simp [h1, h2] at hc
    | ok u2 =>
      cases h3 : env.get_by_id dId cId with
      | error e =>
        refine ⟨[mkEvent dId "vectorizing" 10 "Decoupage du document en chunks..." false],
          by simp [h1, h2, h3], by simp [h1, h2, h3], by simp [h1, h2, h3],
          Or.inr (by simp [h1, h2, h3]), ?_, by simp, ?_⟩
        · intro ev hev
          simp at hev
          simp [hev, mkEvent]
        · intro cs hc
          simp [h1, h2, h3] at hc
      | ok docRow =>
        cases h4 : env.splitPdf content with
        | error e =>
          refine ⟨[mkEvent dId "vectorizing" 10 "Decoupage du document en chunks..." false],
            by simp [h1, h2, h3, h4], by simp [h1, h2, h3, h4], by simp [h1, h2, h3, h4],
            Or.inr (by simp [h1, h2, h3, h4]), ?_, by simp, ?_⟩
          · intro ev hev
            simp at hev
            simp [hev, mkEvent]
          · intro cs hc
            simp [h1, h2, h3, h4] at hc
        | ok texts =>
          cases h5 : env.publish ch
              (mkEvent dId "vectorizing" 20 (chunkCountMessage texts.length) false) with
          | error e =>
            refine ⟨[mkEvent dId "vectorizing" 10 "Decoupage du document en chunks..." false],
              by simp [h1, h2, h3, h4, h5], by simp [h1, h2, h3, h4, h5],
              by simp [h1, h2, h3, h4, h5], Or.inr (by simp [h1, h2, h3, h4, h5]),
              ?_, by simp, ?_⟩
            · intro ev hev
              simp at hev
              simp [hev, mkEvent]
            · intro cs hc
              simp [h1, h2, h3, h4, h5] at hc
          | ok u3 =>
            refine ⟨[mkEvent dId "vectorizing" 10 "Decoupage du document en chunks..." false,
              mkEvent dId "vectorizing" 20 (chunkCountMessage texts.length) false],
              by simp [h1, h2, h3, h4, h5], by simp [h1, h2, h3, h4, h5],
              by simp [h1, h2, h3, h4, h5], Or.inr (by simp [h1, h2, h3, h4, h5]),
              ?_, ?_, ?_⟩
            · intro ev hev
              simp at hev
              rcases hev with h | h <;> simp [h, mkEvent]
            · simp [mkEvent]
            · intro cs hc
              simp [h1, h2, h3, h4, h5] at hc
              refine ⟨by simp [h1, h2, h3, h4, h5], by simp [h1, h2, h3, h4, h5], ?_⟩
              rw [← hc]
              simp

/-- The progress of the event after batch `i` (0-based), as published by
`_embed`: `20 + int(((i + 1) / t) * 75)` in binary64. -/
theorem embedEvent_progress (dId : String) (t total i : Nat) :
    (embedEvent dId t total i).progress = 20 + pyProgress75 (i + 1) t := rfl

/-- Batch progress is monotone in the batch index (both binary64 roundings
and the truncation are monotone). -/
theorem embedEvent_progress_mono (dId : String) (t total : Nat) (i : Nat) :
    (embedEvent dId t total i).progress ≤ (embedEvent dId t total (i + 1)).progress := by
  show 20 + pyProgress75 (i + 1) t ≤ 20 + pyProgress75 (i + 1 + 1) t
  have h := pyProgress75_mono (i + 1) (i + 1 + 1) t (by omega)
  omega

/-- Batch progress stays at most 95 while the index is within the batch count. -/
theorem embedEvent_progress_le (dId : String) (t total i : Nat) (_ht : 0 < t)
    (hi : i + 1 ≤ t) : (embedEvent dId t total i).progress ≤ 95 := by
  show 20 + pyProgress75 (i + 1) t ≤ 95
  have h := pyProgress75_le (i + 1) t hi
  omega

/-- Batch progress is at least 20. -/
theorem embedEvent_progress_ge (dId : String) (t total i : Nat) :
    20 ≤ (embedEvent dId t total i).progress :=
  Nat.le_add_right 20 _

/-- Reindexing an enumeration started one step later. -/
theorem range_map_shift (g : Nat → Event) (k m : Nat) :
    g k :: (List.range m).map (fun i => g (k + 1 + i)) =
      (List.range (m + 1)).map (fun i => g (k + i)) := by
  rw [List.range_succ_eq_map]
  simp only [List.map_cons, List.map_map, Nat.add_zero]
  congr 1
  apply List.map_congr_left
  intro x _
  simp only [Function.comp]
  congr 1
  omega

/-- What the batch loop of `_embed` does, for every environment: it publishes
the batch events for an initial segment of the remaining batches (one fewer
event than indexed batches when the publish after a successful add raises),
indexes the corresponding prefix, touches nothing else, publishes all batches
when it returns normally, and returns normally when the vector store and the
broker are up. -/
theorem embedLoop_spec (env : WorkerEnv) (ch dId : String) (t total : Nat) :
    ∀ (bs : List (List Chunk)) (k : Nat) (s : PState),
    ∃ mE mI, mE ≤ bs.length ∧ mI ≤ bs.length ∧ mE ≤ mI ∧ mI ≤ mE + 1 ∧
      (embedLoop env ch dId t total k bs s).1.published =
        s.published ++ (List.range mE).map (fun i => embedEvent dId t total (k + i)) ∧
      (embedLoop env ch dId t total k bs s).1.indexed = s.indexed ++ bs.take mI ∧
      (embedLoop env ch dId t total k bs s).1.docStatus = s.docStatus ∧
      (embedLoop env ch dId t total k bs s).1.docError = s.docError ∧
      (embedLoop env ch dId t total k bs s).1.blobDeleted = s.blobDeleted ∧
      ((embedLoop env ch dId t total k bs s).2 = Except.ok () → mE = bs.length) ∧
      ((∀ b, env.add_documents b = Except.ok ()) →
        (∀ ev, env.publish ch ev = Except.ok ()) →
        (embedLoop env ch dId t total k bs s).2 = Except.ok ()) := by
  intro bs
  induction bs with
  | nil =>
    intro k s
    exact ⟨0, 0, by simp, by simp, by simp, by simp, by simp [embedLoop],
      by simp [embedLoop], by simp [embedLoop], by simp [embedLoop],
      by simp [embedLoop], fun _ => rfl, fun _ _ => rfl⟩
  | cons b rest ih =>
    intro k s
    cases hA : env.add_documents b with
    | error e =>
      refine ⟨0, 0, by simp, by simp, by simp, by simp, ?_, ?_, ?_, ?_, ?_, ?_, ?_⟩
      · simp [embedLoop, bindE, WorkerEnv.runAddDocuments, hA]
      · simp [embedLoop, bindE, WorkerEnv.runAddDocuments, hA]
      · simp [embedLoop, bindE, WorkerEnv.runAddDocuments, hA]
      · simp [embedLoop, bindE, WorkerEnv.runAddDocuments, hA]
      · simp [embedLoop, bindE, WorkerEnv.runAddDocuments, hA]
      · intro hok
        simp [embedLoop, bindE, WorkerEnv.runAddDocuments, hA] at hok
      · intro hadd _
        rw [hadd b] at hA
        exact absurd hA (by simp)
    | ok u =>
      cases hP : env.publish ch (embedEvent dId t total k) with
      | error e =>
        refine ⟨0, 1, by simp, by simp, by simp, by simp, ?_, ?_, ?_, ?_, ?_, ?_, ?_⟩
        · simp [embedLoop, bindE, WorkerEnv.runAddDocuments, WorkerEnv.runPublish, hA, hP]
        · simp [embedLoop, bindE, WorkerEnv.runAddDocuments, WorkerEnv.runPublish, hA, hP]
        · simp [embedLoop, bindE, WorkerEnv.runAddDocuments, WorkerEnv.runPublish, hA, hP]
        · simp [embedLoop, bindE, WorkerEnv.runAddDocuments, WorkerEnv.runPublish, hA, hP]
        · simp [embedLoop, bindE, WorkerEnv.runAddDocuments, WorkerEnv.runPublish, hA, hP]
        · intro hok
          simp [embedLoop, bindE, WorkerEnv.runAddDocuments, WorkerEnv.runPublish,
            hA, hP] at hok
        · intro _ hpub
          rw [hpub (embedEvent dId t total k)] at hP
          exact absurd hP (by simp)
      | ok u2 =>
        obtain ⟨mE, mI, hm1, hm2, hm3, hm4, hpub', hidx', hst', herr', hbl', hok', hall'⟩ :=
          ih (k + 1) { s with
            indexed := s.indexed ++ [b]
            published := s.published ++ [embedEvent dId t total k] }
        have hstep : embedLoop env ch dId t total k (b :: rest) s =
            embedLoop env ch dId t total (k + 1) rest { s with
              indexed := s.indexed ++ [b]
              published := s.published ++ [embedEvent dId t total k] } := by
          simp [embedLoop, bindE, WorkerEnv.runAddDocuments, WorkerEnv.runPublish, hA, hP]
        refine ⟨mE + 1, mI + 1, by simp; omega, by simp; omega, by omega, by omega,
          ?_, ?_, ?_, ?_, ?_, ?_, ?_⟩
        · rw [hstep, hpub']
          simp only [List.append_assoc, List.singleton_append]
          rw [range_map_shift]
        · rw [hstep, hidx']
          simp [List.take_succ_cons]
        · rw [hstep, hst']
        · rw [hstep, herr']
        · rw [hstep, hbl']
        · intro hok
          rw [hstep] at hok
          have := hok' hok
          simp [this]
        · intro hadd hpub
          rw [hstep]
          exact hall' hadd hpub

/-- A nonempty chunk list yields at least one batch. -/
theorem toBatches_pos {chunks : List Chunk} (h : chunks ≠ []) :
    0 < (toBatches chunks).length := by
  cases chunks with
  | nil => exact absurd rfl h
  | cons c rest => simp [toBatches, toBatchesAux]

/-- What `_embed` does to the state, for every environment: it only appends
non-terminal "vectorizing" events with non-decreasing progress between 20 and
95, leaves status, error and blob untouched, and is a no-op returning normally
on an empty chunk list. -/
theorem embed_spec (env : WorkerEnv) (ch dId : String) (chunks : List Chunk)
    (s : PState) :
    ∃ new, (embed env ch dId chunks s).1.published = s.published ++ new ∧
      (embed env ch dId chunks s).1.docStatus = s.docStatus ∧
      (embed env ch dId chunks s).1.docError = s.docError ∧
      (embed env ch dId chunks s).1.blobDeleted = s.blobDeleted ∧
      (∀ ev ∈ new, ev.done = false ∧ ev.step = "vectorizing" ∧
        20 ≤ ev.progress ∧ ev.progress ≤ 95) ∧
      List.Chain' (· ≤ ·) (new.map Event.progress) ∧
      (chunks = [] → new = [] ∧ (embed env ch dId chunks s).1 = s ∧
        (embed env ch dId chunks s).2 = Except.ok ()) := by
  by_cases hc : chunks.length = 0
  · have hnil : chunks = [] := List.length_eq_zero.mp hc
    refine ⟨[], ?_, ?_, ?_, ?_, by simp, by simp, fun _ => ⟨rfl, ?_, ?_⟩⟩ <;>
      simp [embed, hc]
  · have hne : chunks ≠ [] := fun h0 => hc (by simp [h0])
    have ht : 0 < (toBatches chunks).length := toBatches_pos hne
    have hemb : embed env ch dId chunks s =
        embedLoop env ch dId (toBatches chunks).length chunks.length 0
          (toBatches chunks) s := by
      simp [embed, hc]
    obtain ⟨mE, mI, hm1, _, _, _, hpub, _, hst, herr, hbl, _, _⟩ :=
      embedLoop_spec env ch dId (toBatches chunks).length chunks.length
        (toBatches chunks) 0 s
    refine ⟨(List.range mE).map
      (fun i => embedEvent dId (toBatches chunks).length chunks.length (0 + i)),
      ?_, ?_, ?_, ?_, ?_, ?_, fun h0 => absurd h0 hne⟩
    · rw [hemb, hpub]
    · rw [hemb, hst]
    · rw [hemb, herr]
    · rw [hemb, hbl]
    · intro ev hev
      simp only [List.mem_map, List.mem_range] at hev
      obtain ⟨i, hi, rfl⟩ := hev
      refine ⟨rfl, rfl, embedEvent_progress_ge _ _ _ _, ?_⟩
      exact embedEvent_progress_le _ _ _ _ ht (by omega)
    · rw [List.map_map]
      apply chain'_le_range_map
      intro i
      simp only [Function.comp]
      simpa using embedEvent_progress_mono dId (toBatches chunks).length
        chunks.length i

/-- What `_complete` does, for every environment: on success the row is
completed with a cleared error, the blob is deleted and exactly the terminal
completed event is appended; on a raising call nothing is published or
indexed and the row either kept its fields or is completed with the error
cleared. -/
theorem complete_spec (env : WorkerEnv) (ch dId g : String) (s : PState) :
    ((complete env ch dId g s).2 = Except.ok () →
      (complete env ch dId g s).1 = { s with docStatus := DocumentStatus.completed, docError := none, blobDeleted := true, published := s.published ++ [completedEvent dId] }) ∧
    (∀ e, (complete env ch dId g s).2 = Except.error e →
      (complete env ch dId g s).1.published = s.published ∧
      (complete env ch dId g s).1.indexed = s.indexed ∧
      (((complete env ch dId g s).1.docStatus = s.docStatus ∧
          (complete env ch dId g s).1.docError = s.docError) ∨
        ((complete env ch dId g s).1.docStatus = DocumentStatus.completed ∧
          (complete env ch dId g s).1.docError = none))) := by
  unfold complete publish_progress WorkerEnv.runPublish WorkerEnv.runUpdateStatus
    WorkerEnv.runDeleteBlob bindE
  cases h1 : env.updateStatus DocumentStatus.completed none with
  | error e =>
    refine ⟨?_, ?_⟩
    · intro hok
      simp [h1] at hok
    · intro e' he'
      exact ⟨by simp [h1], by simp [h1], Or.inl ⟨by simp [h1], by simp [h1]⟩⟩
  | ok u =>
    cases h2 : env.deleteBlob g with
    | error e =>
      refine ⟨?_, ?_⟩
      · intro hok
        simp [h1, h2] at hok
      · intro e' he'
        exact ⟨by simp [h1, h2], by simp [h1, h2],
          Or.inr ⟨by simp [h1, h2], by simp [h1, h2]⟩⟩
    | ok u2 =>
      cases h3 : env.publish ch (mkEvent dId "completed" 100 "Traitement termine" true) with
      | error e =>
        refine ⟨?_, ?_⟩
        · intro hok
          simp [h1, h2, h3] at hok
        · intro e' he'
          exact ⟨by simp [h1, h2, h3], by simp [h1, h2, h3],
            Or.inr ⟨by simp [h1, h2, h3], by simp [h1, h2, h3]⟩⟩
      | ok u3 =>
        refine ⟨?_, ?_⟩
        · intro hok
          simp [h1, h2, h3, completedEvent]
        · intro e' he'
          simp [h1, h2, h3] at he'

/-- What `_fail` does, for every environment: on success the row is failed
with exactly the raised error text stored and exactly the terminal failed
event appended; on a raising call nothing is published and the row either
kept its fields or is failed with the error text stored. -/
theorem fail_spec (env : WorkerEnv) (ch dId msg : String) (s : PState) :
    ((fail env ch dId msg s).2 = Except.ok () →
      (fail env ch dId msg s).1 = { s with docStatus := DocumentStatus.failed, docError := some msg, published := s.published ++ [failedEvent dId msg] }) ∧
    (∀ e, (fail env ch dId msg s).2 = Except.error e →
      (fail env ch dId msg s).1.published = s.published ∧
      (fail env ch dId msg s).1.indexed = s.indexed ∧
      (fail env ch dId msg s).1.blobDeleted = s.blobDeleted ∧
      (((fail env ch dId msg s).1.docStatus = s.docStatus ∧
          (fail env ch dId msg s).1.docError = s.docError) ∨
        ((fail env ch dId msg s).1.docStatus = DocumentStatus.failed ∧
          (fail env ch dId msg s).1.docError = some msg))) := by
  unfold fail publish_progress WorkerEnv.runPublish WorkerEnv.runUpdateStatus bindE
  cases h1 : env.updateStatus DocumentStatus.failed (some msg) with
  | error e =>
    refine ⟨?_, ?_⟩
    · intro hok
      simp [h1] at hok
    · intro e' he'
      exact ⟨by simp [h1], by simp [h1], by simp [h1],
        Or.inl ⟨by simp [h1], by simp [h1]⟩⟩
  | ok u =>
    cases h2 : env.publish ch (mkEvent dId "failed" 0 msg true) with
    | error e =>
      refine ⟨?_, ?_⟩
      · intro hok
        simp [h1, h2] at hok
      · intro e' he'
        exact ⟨by simp [h1, h2], by simp [h1, h2], by simp [h1, h2],
          Or.inr ⟨by simp [h1, h2], by simp [h1, h2]⟩⟩
    | ok u2 =>
      refine ⟨?_, ?_⟩
      · intro hok
        simp [h1, h2, failedEvent]
      · intro e' he'
        simp [h1, h2] at he'

/-- "downloading", "vectorizing" and "completed" are not "failed". -/
theorem step_ne_failed :
    "downloading" ≠ "failed" ∧ "vectorizing" ≠ "failed" ∧ "completed" ≠ "failed" := by
  refine ⟨?_, ?_, ?_⟩ <;> decide

/-- What the `try` body of `execute` does, for every environment: it appends a
non-decreasing chain of non-terminal events (none of step "failed", all of
progress at most 95) followed, exactly when it returns normally, by the
terminal completed event with the row completed and its error cleared; when
it raises, only the chain was appended; in every case the row either kept its
fields or holds vectorizing/completed with a cleared error. -/
theorem stages_spec (env : WorkerEnv) (dId cId g : String) (s : PState) :
    ∃ pre, (∀ ev ∈ pre, ev.done = false ∧ ev.step ≠ "failed" ∧ ev.progress ≤ 95) ∧
      List.Chain' (· ≤ ·) (pre.map Event.progress) ∧
      ((stages env dId cId g s).2 = Except.ok () →
        (stages env dId cId g s).1.published =
          s.published ++ pre ++ [completedEvent dId] ∧
        (stages env dId cId g s).1.docStatus = DocumentStatus.completed ∧
        (stages env dId cId g s).1.docError = none) ∧
      (∀ e, (stages env dId cId g s).2 = Except.error e →
        (stages env dId cId g s).1.published = s.published ++ pre) ∧
      (((stages env dId cId g s).1.docStatus = s.docStatus ∧
          (stages env dId cId g s).1.docError = s.docError) ∨
        (((stages env dId cId g s).1.docStatus = DocumentStatus.vectorizing ∨
          (stages env dId cId g s).1.docStatus = DocumentStatus.completed) ∧
          (stages env dId cId g s).1.docError = none)) := by
  obtain ⟨n1, hd1state, hd1props, hd1chain, hd1ok⟩ :=
    download_spec env (progressChannel dId) dId g s
  rcases hd : download env (progressChannel dId) dId g s with ⟨s1, r1⟩
  simp only [hd] at hd1state hd1props hd1chain hd1ok
  have hn1 : ∀ ev ∈ n1, ev.done = false ∧ ev.step ≠ "failed" ∧ ev.progress ≤ 95 := by
    intro ev hev
    obtain ⟨h1, h2, h3⟩ := hd1props ev hev
    exact ⟨h1, by rw [h2]; exact step_ne_failed.1, by omega⟩
  have hs1pub : s1.published = s.published ++ n1 := by rw [hd1state]
  have hs1st : s1.docStatus = s.docStatus := by rw [hd1state]
  have hs1err : s1.docError = s.docError := by rw [hd1state]
  cases r1 with
  | error e1 =>
    have hstage : stages env dId cId g s = (s1, Except.error e1) := by
      simp [stages, bindE, hd]
    refine ⟨n1, hn1, hd1chain, ?_, ?_, ?_⟩
    · intro hok
      simp [hstage] at hok
    · intro e he
      simp only [hstage]
      exact hs1pub
    · exact Or.inl ⟨by simp only [hstage]; exact hs1st,
        by simp only [hstage]; exact hs1err⟩
  | ok content =>
    obtain ⟨n2, hc2pub, _, _, hc2stDisj, hc2props, hc2chain, hc2ok⟩ :=
      chunk_spec env (progressChannel dId) dId cId content s1
    rcases hc : chunk env (progressChannel dId) dId cId content s1 with ⟨s2, r2⟩
    simp only [hc] at hc2pub hc2stDisj hc2props hc2chain hc2ok
    have hn2 : ∀ ev ∈ n2, ev.done = false ∧ ev.step ≠ "failed" ∧ ev.progress ≤ 95 := by
      intro ev hev
      obtain ⟨h1, h2, _, h4⟩ := hc2props ev hev
      exact ⟨h1, by rw [h2]; exact step_ne_failed.2.1, by omega⟩
    have hn12 : ∀ ev ∈ n1 ++ n2, ev.done = false ∧ ev.step ≠ "failed" ∧
        ev.progress ≤ 95 := by
      intro ev hev
      rcases List.mem_append.mp hev with h | h
      · exact hn1 ev h
      · exact hn2 ev h
    have hchain12 : List.Chain' (· ≤ ·) ((n1 ++ n2).map Event.progress) := by
      rw [List.map_append]
      refine chain'_le_append 10 hd1chain hc2chain ?_ ?_
      · intro x hx
        obtain ⟨ev, hev, rfl⟩ := List.mem_map.mp hx
        exact (hd1props ev hev).2.2
      · intro y hy
        obtain ⟨ev, hev, rfl⟩ := List.mem_map.mp hy
        exact (hc2props ev hev).2.2.1
    have hs2pub : s2.published = s.published ++ (n1 ++ n2) := by
      rw [hc2pub, hs1pub, List.append_assoc]
    cases r2 with
    | error e2 =>
      have hstage : stages env dId cId g s = (s2, Except.error e2) := by
        simp [stages, bindE, hd, hc]
      refine ⟨n1 ++ n2, hn12, hchain12, ?_, ?_, ?_⟩
      · intro hok
        simp [hstage] at hok
      · intro e he
        simp only [hstage]
        exact hs2pub
      · simp only [hstage]
        rcases hc2stDisj with ⟨ha, hb⟩ | ⟨ha, hb⟩
        · exact Or.inl ⟨by rw [ha, hs1st], by rw [hb, hs1err]⟩
        · exact Or.inr ⟨Or.inl ha, hb⟩
    | ok chunks =>
      obtain ⟨hs2st, hs2err, hn2eq⟩ := hc2ok chunks rfl
      obtain ⟨n3, he3pub, he3st, he3err, _, he3props, he3chain, _⟩ :=
        embed_spec env (progressChannel dId) dId chunks s2
      rcases he : embed env (progressChannel dId) dId chunks s2 with ⟨s3, r3⟩
      simp only [he] at he3pub he3st he3err he3props he3chain
      have hn3 : ∀ ev ∈ n3, ev.done = false ∧ ev.step ≠ "failed" ∧
          ev.progress ≤ 95 := by
        intro ev hev
        obtain ⟨h1, h2, _, h4⟩ := he3props ev hev
        exact ⟨h1, by rw [h2]; exact step_ne_failed.2.1, h4⟩
      have hn123 : ∀ ev ∈ n1 ++ n2 ++ n3, ev.done = false ∧ ev.step ≠ "failed" ∧
          ev.progress ≤ 95 := by
        intro ev hev
        rcases List.mem_append.mp hev with h | h
        · exact hn12 ev h
        · exact hn3 ev h
      have hchain123 : List.Chain' (· ≤ ·) ((n1 ++ n2 ++ n3).map Event.progress) := by
        rw [List.map_append]
        refine chain'_le_append 20 hchain12 he3chain ?_ ?_
        · intro x hx
          obtain ⟨ev, hev, rfl⟩ := List.mem_map.mp hx
          rcases List.mem_append.mp hev with h | h
          · exact le_trans (hd1props ev h).2.2 (by omega)
          · exact (hc2props ev h).2.2.2
        · intro y hy
          obtain ⟨ev, hev, rfl⟩ := List.mem_map.mp hy
          exact (he3props ev hev).2.2.1
      have hs3pub : s3.published = s.published ++ (n1 ++ n2 ++ n3) := by
        rw [he3pub, hs2pub, List.append_assoc]
      have hs3st : s3.docStatus = DocumentStatus.vectorizing := by rw [he3st, hs2st]
      have hs3err : s3.docError = none := by rw [he3err, hs2err]
      cases r3 with
      | error e3 =>
        have hstage : stages env dId cId g s = (s3, Except.error e3) := by
          simp [stages, bindE, hd, hc, he]
        refine ⟨n1 ++ n2 ++ n3, hn123, hchain123, ?_, ?_, ?_⟩
        · intro hok
          simp [hstage] at hok
        · intro e _
          simp only [hstage]
          exact hs3pub
        · simp only [hstage]
          exact Or.inr ⟨Or.inl hs3st, hs3err⟩
      | ok u3 =>
        obtain ⟨hcm_ok, hcm_err⟩ := complete_spec env (progressChannel dId) dId g s3
        rcases hcm : complete env (progressChannel dId) dId g s3 with ⟨s4, r4⟩
        simp only [hcm] at hcm_ok hcm_err
        have hstage : stages env dId cId g s = (s4, r4) := by
          simp [stages, bindE, hd, hc, he, hcm]
        cases r4 with
        | ok u4 =>
          have h4 := hcm_ok rfl
          refine ⟨n1 ++ n2 ++ n3, hn123, hchain123, ?_, ?_, ?_⟩
          · intro _
            refine ⟨?_, ?_, ?_⟩
            · simp only [hstage]
              rw [h4]
              rw [hs3pub]
            · simp only [hstage]
              rw [h4]
            · simp only [hstage]
              rw [h4]
          · intro e he'
            simp [hstage] at he'
          · simp only [hstage]
            rw [h4]
            exact Or.inr ⟨Or.inr rfl, rfl⟩
        | error e4 =>
          obtain ⟨h4pub, _, h4disj⟩ := hcm_err e4 rfl
          refine ⟨n1 ++ n2 ++ n3, hn123, hchain123, ?_, ?_, ?_⟩
          · intro hok
            simp [hstage] at hok
          · intro e _
            simp only [hstage]
            rw [h4pub]
            exact hs3pub
          · simp only [hstage]
            rcases h4disj with ⟨ha, hb⟩ | ⟨ha, hb⟩
            · exact Or.inr ⟨Or.inl (by rw [ha, hs3st]), by rw [hb, hs3err]⟩
            · exact Or.inr ⟨Or.inr ha, hb⟩

/-- Running `_fail` when its own two collaborator calls succeed: the row is
failed with the error text stored and the terminal failed event is appended. -/
theorem fail_run_ok (env : WorkerEnv) (ch dId e : String) (s : PState)
    (hU : env.updateStatus DocumentStatus.failed (some e) = Except.ok ())
    (hP : env.publish ch (mkEvent dId "failed" 0 e true) = Except.ok ()) :
    fail env ch dId e s = ({ s with docStatus := DocumentStatus.failed, docError := some e, published := s.published ++ [failedEvent dId e] }, Except.ok ()) := by
  simp [fail, publish_progress, WorkerEnv.runPublish, WorkerEnv.runUpdateStatus,
    bindE, hU, hP, failedEvent]

/-- C1 counterexample to the claim as stated: with the blob download raising
and the Document Store also down for the failed-status write, the failure
handler's own `update_status` call raises, `execute` propagates the exception
and the document is left in the non-terminal status queued. -/
theorem C1_counterexample :
    (execute wEnvFailUpd "d" "c" "g" PState.init).2 = Except.error "db down" ∧
    (execute wEnvFailUpd "d" "c" "g" PState.init).1.docStatus = DocumentStatus.queued ∧
    ¬((execute wEnvFailUpd "d" "c" "g" PState.init).1.docStatus = DocumentStatus.completed ∨
      (execute wEnvFailUpd "d" "c" "g" PState.init).1.docStatus = DocumentStatus.failed) := by
  refine ⟨rfl, rfl, ?_⟩
  intro h
  rcases h with h | h <;> simp [execute, stages, download, chunk, embed, complete,
    publish_progress, WorkerEnv.runPublish, WorkerEnv.runUpdateStatus, bindE,
    wEnvFailUpd, wEnvOk, fail, PState.init] at h

/-- C1 (amended): provided the failure handler's own Document Store update and
broker publish succeed, every processing attempt — whatever any stage raises —
leaves the document in a terminal status (completed or failed) and `execute`
itself propagates no exception. -/
theorem C1_terminal_state (env : WorkerEnv) (dId cId g : String) (s : PState)
    (hU : ∀ m, env.updateStatus DocumentStatus.failed (some m) = Except.ok ())
    (hP : ∀ ch ev, ev.step = "failed" → env.publish ch ev = Except.ok ()) :
    (execute env dId cId g s).2 = Except.ok () ∧
    ((execute env dId cId g s).1.docStatus = DocumentStatus.completed ∨
      (execute env dId cId g s).1.docStatus = DocumentStatus.failed) := by
  obtain ⟨pre, _, _, hok, _, _⟩ := stages_spec env dId cId g s
  rcases hst : stages env dId cId g s with ⟨s1, r1⟩
  simp only [hst] at hok
  cases r1 with
  | ok u =>
    have hexec : execute env dId cId g s = (s1, Except.ok ()) := by
      simp [execute, hst]
    obtain ⟨_, hstatus, _⟩ := hok rfl
    exact ⟨by simp [hexec], Or.inl (by simp only [hexec]; exact hstatus)⟩
  | error e =>
    have hexec : execute env dId cId g s = fail env (progressChannel dId) dId e s1 := by
      simp [execute, hst]
    rw [hexec, fail_run_ok env (progressChannel dId) dId e s1 (hU e)
      (hP (progressChannel dId) (mkEvent dId "failed" 0 e true) rfl)]
    exact ⟨rfl, Or.inr rfl⟩

/-- Witness for C1 with the all-healthy environment. -/
theorem C1_terminal_state_witness :
    (execute wEnvOk "d" "c" "g" PState.init).2 = Except.ok () ∧
    ((execute wEnvOk "d" "c" "g" PState.init).1.docStatus = DocumentStatus.completed ∨
      (execute wEnvOk "d" "c" "g" PState.init).1.docStatus = DocumentStatus.failed) :=
  C1_terminal_state wEnvOk "d" "c" "g" PState.init (fun _ => rfl) (fun _ _ _ => rfl)

/-- C2 counterexample to the claim as stated: the download stage raises
("boom") but the broker is down for terminal events, so the failure handler's
publish raises: the status is set to failed, yet no terminal progress event
at all is published — the claim demands exactly one. -/
theorem C2_counterexample :
    (stages wEnvFailPub "d" "c" "g" PState.init).2 = Except.error "boom" ∧
    (execute wEnvFailPub "d" "c" "g" PState.init).1.docStatus = DocumentStatus.failed ∧
    (execute wEnvFailPub "d" "c" "g" PState.init).1.published.filter
      (fun ev => ev.done) = [] := by
  exact ⟨rfl, rfl, rfl⟩

/-- C2 (amended): when a stage raises `e` and the failure handler's own update
and publish succeed, the pipeline sets status=failed with error_message equal
to `str(e)`, publishes exactly one terminal event — step "failed", progress 0,
done, message `str(e)` — as the channel's last event, performs no further
stages, and `execute` returns normally. -/
theorem C2_failure_handler (env : WorkerEnv) (dId cId g e : String) (s₁ : PState)
    (hstages : stages env dId cId g PState.init = (s₁, Except.error e))
    (hU : ∀ m, env.updateStatus DocumentStatus.failed (some m) = Except.ok ())
    (hP : ∀ ch ev, ev.step = "failed" → env.publish ch ev = Except.ok ()) :
    (execute env dId cId g PState.init).2 = Except.ok () ∧
    (execute env dId cId g PState.init).1.docStatus = DocumentStatus.failed ∧
    (execute env dId cId g PState.init).1.docError = some e ∧
    (execute env dId cId g PState.init).1.published =
      s₁.published ++ [failedEvent dId e] ∧
    (execute env dId cId g PState.init).1.published.filter (fun ev => ev.done) =
      [failedEvent dId e] := by
  obtain ⟨pre, hprops, _, _, herr, _⟩ := stages_spec env dId cId g PState.init
  simp only [hstages] at herr
  have hs1pub : s₁.published = pre := by
    have := herr e rfl
    simpa [PState.init] using this
  have hexec : execute env dId cId g PState.init =
      fail env (progressChannel dId) dId e s₁ := by
    simp [execute, hstages]
  rw [hexec, fail_run_ok env (progressChannel dId) dId e s₁ (hU e)
    (hP (progressChannel dId) (mkEvent dId "failed" 0 e true) rfl)]
  refine ⟨rfl, rfl, rfl, rfl, ?_⟩
  simp only [List.filter_append]
  have h1 : s₁.published.filter (fun ev => ev.done) = [] := by
    rw [hs1pub]
    apply List.filter_eq_nil_iff.mpr
    intro ev hev
    simp [(hprops ev hev).1]
  rw [h1]
  rfl

/-- Witness for C2: download raises "boom" against an otherwise healthy
environment; the attempt ends failed with the single terminal failed event. -/
theorem C2_failure_handler_witness :
    (execute wEnvDownloadBoom "d" "c" "g" PState.init).2 = Except.ok () ∧
    (execute wEnvDownloadBoom "d" "c" "g" PState.init).1.docStatus =
      DocumentStatus.failed ∧
    (execute wEnvDownloadBoom "d" "c" "g" PState.init).1.docError = some "boom" ∧
    (execute wEnvDownloadBoom "d" "c" "g" PState.init).1.published =
      (⟨DocumentStatus.queued, none,
        [mkEvent "d" "downloading" 0 "Telechargement du fichier..." false],
        [], false⟩ : PState).published ++ [failedEvent "d" "boom"] ∧
    (execute wEnvDownloadBoom "d" "c" "g" PState.init).1.published.filter
      (fun ev => ev.done) = [failedEvent "d" "boom"] :=
  C2_failure_handler wEnvDownloadBoom "d" "c" "g" "boom"
    ⟨DocumentStatus.queued, none,
      [mkEvent "d" "downloading" 0 "Telechargement du fichier..." false], [], false⟩
    rfl (fun _ => rfl) (fun _ _ _ => rfl)

/-- C3 counterexample to the claim as stated: with a healthy infrastructure
but a corrupt PDF (the splitter raises), the published sequence is
0, 10, 10 followed by the terminal failed event with progress 0 — the
progress percentages of one attempt are not non-decreasing. -/
theorem C3_counterexample :
    ((execute wEnvBadPdf "d" "c" "g" PState.init).1.published.map Event.progress) =
      [0, 10, 10, 0] ∧
    ¬ List.Chain' (· ≤ ·)
      ((execute wEnvBadPdf "d" "c" "g" PState.init).1.published.map Event.progress) := by
  refine ⟨rfl, fun h => ?_⟩
  have h0 : ((execute wEnvBadPdf "d" "c" "g" PState.init).1.published.map
      Event.progress) = [0, 10, 10, 0] := rfl
  rw [h0] at h
  simp [List.chain'_cons] at h

/-- C3 (amended): in any single attempt, the progress percentages of all
events other than the terminal failed event form a non-decreasing sequence
(the completed event carries the maximum, 100); every event except the last
has done=false; whenever `execute` returns normally the attempt ends with
exactly one done=true event, its last; and any step="failed" event carries
progress 0 and done=true. -/
theorem C3_progress_monotone (env : WorkerEnv) (dId cId g : String) :
    List.Chain' (· ≤ ·)
      (((execute env dId cId g PState.init).1.published.filter
        (fun ev => ev.step != "failed")).map Event.progress) ∧
    (∀ ev ∈ (execute env dId cId g PState.init).1.published.dropLast,
      ev.done = false) ∧
    ((execute env dId cId g PState.init).2 = Except.ok () →
      ∃ pre tev, (execute env dId cId g PState.init).1.published = pre ++ [tev] ∧
        tev.done = true ∧ ∀ ev ∈ pre, ev.done = false) ∧
    (∀ ev ∈ (execute env dId cId g PState.init).1.published,
      ev.step = "failed" → ev.progress = 0 ∧ ev.done = true) := by
  obtain ⟨pre, hprops, hchain, hok, herr, _⟩ := stages_spec env dId cId g PState.init
  rcases hst : stages env dId cId g PState.init with ⟨s₁, r₁⟩
  simp only [hst] at hok herr
  have hfilter_pre : pre.filter (fun ev => ev.step != "failed") = pre := by
    apply List.filter_eq_self.mpr
    intro ev hev
    simpa using (hprops ev hev).2.1
  cases r₁ with
  | ok u =>
    have hexec : execute env dId cId g PState.init = (s₁, Except.ok ()) := by
      simp [execute, hst]
    obtain ⟨hpub, _, _⟩ := hok rfl
    have hpub' : s₁.published = pre ++ [completedEvent dId] := by
      simpa [PState.init] using hpub
    refine ⟨?_, ?_, ?_, ?_⟩
    · simp only [hexec]
      rw [hpub', List.filter_append]
      have h2f : [completedEvent dId].filter (fun ev => ev.step != "failed") =
          [completedEvent dId] := by
        simp [completedEvent, mkEvent]
      rw [hfilter_pre, h2f, List.map_append]
      refine chain'_le_append 95 hchain (by simp) ?_ ?_
      · intro x hx
        obtain ⟨ev, hev, rfl⟩ := List.mem_map.mp hx
        exact (hprops ev hev).2.2
      · intro y hy
        simp [completedEvent, mkEvent] at hy
        omega
    · simp only [hexec]
      rw [hpub', List.dropLast_concat]
      intro ev hev
      exact (hprops ev hev).1
    · intro _
      refine ⟨pre, completedEvent dId, ?_, rfl, fun ev hev => (hprops ev hev).1⟩
      simp only [hexec]
      exact hpub'
    · simp only [hexec]
      rw [hpub']
      intro ev hev hfev
      rcases List.mem_append.mp hev with h | h
      · exact absurd hfev (hprops ev h).2.1
      · simp only [List.mem_singleton] at h
        subst h
        simp [completedEvent, mkEvent] at hfev
  | error e =>
    have hexec : execute env dId cId g PState.init =
        fail env (progressChannel dId) dId e s₁ := by
      simp [execute, hst]
    have hs1pub : s₁.published = pre := by
      simpa [PState.init] using herr e rfl
    obtain ⟨hfok, hferr⟩ := fail_spec env (progressChannel dId) dId e s₁
    rcases hf : fail env (progressChannel dId) dId e s₁ with ⟨s₂, r₂⟩
    simp only [hf] at hfok hferr
    cases r₂ with
    | ok u =>
      have h2 := hfok rfl
      have hpub2 : s₂.published = pre ++ [failedEvent dId e] := by
        simp only [h2]
        rw [hs1pub]
      refine ⟨?_, ?_, ?_, ?_⟩
      · simp only [hexec, hf]
        rw [hpub2, List.filter_append]
        have h2f : [failedEvent dId e].filter (fun ev => ev.step != "failed") = [] := by
          simp [failedEvent, mkEvent]
        rw [hfilter_pre, h2f, List.append_nil]
        exact hchain
      · simp only [hexec, hf]
        rw [hpub2, List.dropLast_concat]
        intro ev hev
        exact (hprops ev hev).1
      · intro _
        refine ⟨pre, failedEvent dId e, ?_, rfl, fun ev hev => (hprops ev hev).1⟩
        simp only [hexec, hf]
        exact hpub2
      · simp only [hexec, hf]
        rw [hpub2]
        intro ev hev hfev
        rcases List.mem_append.mp hev with h | h
        · exact absurd hfev (hprops ev h).2.1
        · simp only [List.mem_singleton] at h
          subst h
          exact ⟨rfl, rfl⟩
    | error e₂ =>
      obtain ⟨hpub2, _, _, _⟩ := hferr e₂ rfl
      have hpub2' : s₂.published = pre := by rw [hpub2, hs1pub]
      refine ⟨?_, ?_, ?_, ?_⟩
      · simp only [hexec, hf]
        rw [hpub2', hfilter_pre]
        exact hchain
      · simp only [hexec, hf]
        intro ev hev
        have hmem : ev ∈ s₂.published := List.dropLast_subset _ hev
        rw [hpub2'] at hmem
        exact (hprops ev hmem).1
      · intro hok2
        simp only [hexec, hf] at hok2
        exact absurd hok2 (by simp)
      · simp only [hexec, hf]
        rw [hpub2']
        intro ev hev hfev
        exact absurd hfev (hprops ev hev).2.1

/-- Witness for C3 with the all-healthy environment (seven batches). -/
theorem C3_progress_monotone_witness :
    List.Chain' (· ≤ ·)
      (((execute wEnvOk "d" "c" "g" PState.init).1.published.filter
        (fun ev => ev.step != "failed")).map Event.progress) ∧
    (execute wEnvOk "d" "c" "g" PState.init).2 = Except.ok () ∧
    (∃ pre tev, (execute wEnvOk "d" "c" "g" PState.init).1.published = pre ++ [tev] ∧
      tev.done = true ∧ ∀ ev ∈ pre, ev.done = false) := by
  have h := C3_progress_monotone wEnvOk "d" "c" "g"
  exact ⟨h.1, rfl, h.2.2.1 rfl⟩

/-- C8 counterexample to the claim as stated: a stage exception whose
`str(e)` is empty (a bare `Exception()` from the blob store) is stored as-is,
leaving status=failed with an empty — not non-empty — error message. -/
theorem C8_counterexample :
    (execute wEnvEmptyErr "d" "c" "g" PState.init).1.docStatus =
      DocumentStatus.failed ∧
    (execute wEnvEmptyErr "d" "c" "g" PState.init).1.docError = some "" := by
  exact ⟨rfl, rfl⟩

/-- C8 (amended): after a full attempt from the freshly queued row, the
error_message column is set (non-NULL) iff status=failed — updates to
vectorizing or completed clear it, and the failure handler stores exactly
`str(e)`, which is therefore non-empty exactly when the raised error's text
is. -/
theorem C8_error_iff_failed (env : WorkerEnv) (dId cId g : String) :
    ((execute env dId cId g PState.init).1.docError.isSome = true ↔
      (execute env dId cId g PState.init).1.docStatus = DocumentStatus.failed) ∧
    (∀ s₁ e, stages env dId cId g PState.init = (s₁, Except.error e) →
      (execute env dId cId g PState.init).1.docStatus = DocumentStatus.failed →
      (execute env dId cId g PState.init).1.docError = some e) := by
  obtain ⟨pre, _, _, hok, _, hdisj⟩ := stages_spec env dId cId g PState.init
  rcases hst : stages env dId cId g PState.init with ⟨s₁, r₁⟩
  simp only [hst] at hok hdisj
  have hs1err : s₁.docError = none := by
    rcases hdisj with ⟨_, hb⟩ | ⟨_, hb⟩
    · rw [hb]
      rfl
    · exact hb
  have hs1st : s₁.docStatus ≠ DocumentStatus.failed := by
    rcases hdisj with ⟨ha, _⟩ | ⟨ha, _⟩
    · rw [ha]
      simp [PState.init]
    · rcases ha with h | h <;> rw [h] <;> simp
  cases r₁ with
  | ok u =>
    have hexec : execute env dId cId g PState.init = (s₁, Except.ok ()) := by
      simp [execute, hst]
    obtain ⟨_, hstc, hserr⟩ := hok rfl
    constructor
    · simp only [hexec]
      rw [hserr, hstc]
      simp
    · intro s₁' e heq _
      have := congrArg Prod.snd heq
      simp at this
  | error e =>
    have hexec : execute env dId cId g PState.init =
        fail env (progressChannel dId) dId e s₁ := by
      simp [execute, hst]
    obtain ⟨hfok, hferr⟩ := fail_spec env (progressChannel dId) dId e s₁
    rcases hf : fail env (progressChannel dId) dId e s₁ with ⟨s₂, r₂⟩
    simp only [hf] at hfok hferr
    cases r₂ with
    | ok u =>
      have h2 := hfok rfl
      constructor
      · simp only [hexec, hf]
        simp [h2]
      · intro s₁' e' heq _
        have hsnd := congrArg Prod.snd heq
        simp only [Except.error.injEq] at hsnd
        subst hsnd
        simp only [hexec, hf, h2]
    | error e₂ =>
      obtain ⟨_, _, _, hdisj2⟩ := hferr e₂ rfl
      constructor
      · simp only [hexec, hf]
        rcases hdisj2 with ⟨ha, hb⟩ | ⟨ha, hb⟩
        · rw [ha, hb, hs1err]
          simp [hs1st]
        · rw [ha, hb]
          simp
      · intro s₁' e' heq hfail
        have hsnd := congrArg Prod.snd heq
        simp only [Except.error.injEq] at hsnd
        subst hsnd
        rcases hdisj2 with ⟨ha, hb⟩ | ⟨ha, hb⟩
        · simp only [hexec, hf] at hfail
          rw [ha] at hfail
          exact absurd hfail hs1st
        · simp only [hexec, hf]
          exact hb

/-- Witness for C8: download raises "boom"; the attempt ends failed with
exactly that text stored. -/
theorem C8_error_iff_failed_witness :
    (execute wEnvDownloadBoom "d" "c" "g" PState.init).1.docStatus =
      DocumentStatus.failed ∧
    (execute wEnvDownloadBoom "d" "c" "g" PState.init).1.docError = some "boom" := by
  have h := C8_error_iff_failed wEnvDownloadBoom "d" "c" "g"
  refine ⟨rfl, ?_⟩
  exact h.2 ⟨DocumentStatus.queued, none,
    [mkEvent "d" "downloading" 0 "Telechargement du fichier..." false], [], false⟩
    "boom" rfl rfl

/-- C4 counterexample to the claim as stated: 61 chunks make 7 batches; the
event published after batch 1 carries percentage 30 (the code truncates the
binary64 product `(1/7) * 75`), whereas `20 + round(1/7 * 75)` is 31. -/
theorem C4_counterexample :
    ((embed wEnvOk "ch" "d" chunks61 PState.init).1.published.map Event.progress) =
      [30, 41, 52, 62, 73, 84, 95] ∧
    specRoundedProgress 1 7 = 31 ∧
    ((embed wEnvOk "ch" "d" chunks61 PState.init).1.published.map
      Event.progress).head? ≠ some (specRoundedProgress 1 7) := by
  refine ⟨rfl, rfl, ?_⟩
  intro h
  have h0 : ((embed wEnvOk "ch" "d" chunks61 PState.init).1.published.map
      Event.progress).head? = some 30 := rfl
  rw [h0] at h
  simp [specRoundedProgress] at h

/-- C4 (amended): for a non-empty chunk list against a healthy vector store
and broker, the embed stage publishes one event per batch, the event after
batch `k` (1-based, `k = i + 1`) carrying percentage exactly
`20 + int((k / total_batches) * 75)` evaluated in IEEE-754 binary64
(`pyProgress75` — not the spec's rounded interpolation, nor in general the
exact floor), and the event after the final batch carries percentage 95
(`t/t` rounds to exactly 1.0 and `1.0 * 75` is exact). -/
theorem C4_batch_progress (env : WorkerEnv) (ch dId : String) (chunks : List Chunk)
    (s : PState) (hne : chunks ≠ [])
    (hadd : ∀ b, env.add_documents b = Except.ok ())
    (hpub : ∀ ev, env.publish ch ev = Except.ok ()) :
    (embed env ch dId chunks s).2 = Except.ok () ∧
    (embed env ch dId chunks s).1.published = s.published ++
      (List.range (toBatches chunks).length).map
        (fun i => embedEvent dId (toBatches chunks).length chunks.length i) ∧
    (∀ i, (embedEvent dId (toBatches chunks).length chunks.length i).progress =
      20 + pyProgress75 (i + 1) (toBatches chunks).length) ∧
    (embedEvent dId (toBatches chunks).length chunks.length
      ((toBatches chunks).length - 1)).progress = 95 := by
  have ht : 0 < (toBatches chunks).length := toBatches_pos hne
  have hlen : ¬ chunks.length = 0 := fun h0 => hne (List.length_eq_zero.mp h0)
  have hemb : embed env ch dId chunks s =
      embedLoop env ch dId (toBatches chunks).length chunks.length 0
        (toBatches chunks) s := by
    simp [embed, hlen]
  obtain ⟨mE, mI, _, _, _, _, hpub', _, _, _, _, hokm, hall⟩ :=
    embedLoop_spec env ch dId (toBatches chunks).length chunks.length
      (toBatches chunks) 0 s
  have hok : (embedLoop env ch dId (toBatches chunks).length chunks.length 0
      (toBatches chunks) s).2 = Except.ok () := hall hadd hpub
  have hmE : mE = (toBatches chunks).length := hokm hok
  refine ⟨?_, ?_, fun i => rfl, ?_⟩
  · rw [hemb]
    exact hok
  · rw [hemb, hpub', hmE]
    apply congrArg
    apply List.map_congr_left
    intro i _
    simp
  · rw [embedEvent_progress]
    have h1 : (toBatches chunks).length - 1 + 1 = (toBatches chunks).length := by omega
    rw [h1, pyProgress75_self _ ht]

/-- Witness for C4: 61 chunks (7 batches) against the healthy environment. -/
theorem C4_batch_progress_witness :
    (embed wEnvOk "ch" "d" chunks61 PState.init).2 = Except.ok () ∧
    (embed wEnvOk "ch" "d" chunks61 PState.init).1.published =
      PState.init.published ++
      (List.range (toBatches chunks61).length).map
        (fun i => embedEvent "d" (toBatches chunks61).length chunks61.length i) ∧
    (∀ i, (embedEvent "d" (toBatches chunks61).length chunks61.length i).progress =
      20 + pyProgress75 (i + 1) (toBatches chunks61).length) ∧
    (embedEvent "d" (toBatches chunks61).length chunks61.length
      ((toBatches chunks61).length - 1)).progress = 95 :=
  C4_batch_progress wEnvOk "ch" "d" chunks61 PState.init (by simp [chunks61])
    (fun _ => rfl) (fun _ => rfl)

/-- C10: a processing attempt whose chunking yields no chunks performs no
vector-index calls and publishes no embed-stage events, yet still completes:
status=completed, blob deleted, and the terminal completed event
(progress 100, done) is published after the four download/chunk events. -/
theorem C10_empty_chunks (env : WorkerEnv) (dId cId g : String)
    (content : FileContent) (docRow : Option DocRow)
    (h1 : env.download g = Except.ok content)
    (h2 : env.updateStatus DocumentStatus.vectorizing none = Except.ok ())
    (h3 : env.get_by_id dId cId = Except.ok docRow)
    (h4 : env.splitPdf content = Except.ok [])
    (h5 : env.updateStatus DocumentStatus.completed none = Except.ok ())
    (h6 : env.deleteBlob g = Except.ok ())
    (h7 : ∀ ch ev, env.publish ch ev = Except.ok ()) :
    execute env dId cId g PState.init =
      (⟨DocumentStatus.completed, none,
        [mkEvent dId "downloading" 0 "Telechargement du fichier..." false,
         mkEvent dId "downloading" 10 "Fichier telecharge" false,
         mkEvent dId "vectorizing" 10 "Decoupage du document en chunks..." false,
         mkEvent dId "vectorizing" 20 (chunkCountMessage 0) false,
         completedEvent dId],
        [], true⟩, Except.ok ()) := by
  simp [execute, stages, download, chunk, chunk_pdf, embed, complete,
    publish_progress, WorkerEnv.runPublish, WorkerEnv.runUpdateStatus,
    WorkerEnv.runDeleteBlob, bindE, h1, h2, h3, h4, h5, h6, h7,
    PState.init, completedEvent]

/-- Witness for C10: the environment whose splitter yields no chunks. -/
theorem C10_empty_chunks_witness :
    execute wEnvNoChunks "d" "c" "g" PState.init =
      (⟨DocumentStatus.completed, none,
        [mkEvent "d" "downloading" 0 "Telechargement du fichier..." false,
         mkEvent "d" "downloading" 10 "Fichier telecharge" false,
         mkEvent "d" "vectorizing" 10 "Decoupage du document en chunks..." false,
         mkEvent "d" "vectorizing" 20 (chunkCountMessage 0) false,
         completedEvent "d"],
        [], true⟩, Except.ok ()) :=
  C10_empty_chunks wEnvNoChunks "d" "c" "g" "bytes" (some { filename := "f.pdf" })
    rfl rfl rfl rfl rfl rfl (fun _ _ => rfl)

end ProcessDocument

end RagPipeline
